import Mathlib

/-!
Verification development for the datocms-plugin-locale-duplicate repository.

The development shallowly embeds the duplication engine of
`src/entrypoints/ConfigScreen.tsx` (the `removeBlockItemIds` tree transform,
the per-record field loop of `duplicateLocaleContent`, its model/record loops
with abort checks, and the `updateStatistics` aggregator) together with the
two strip variants of `src/utils/fieldUtils.ts`, and proves the testable
properties of the specification against these definitions.

JavaScript runtime values are modelled by the mutual inductive `JVal`/`JArr`/
`JObj` below; objects are ordered key-value sequences (JS objects preserve
string-key insertion order), and the JS `undefined` value is a distinct
constructor `JVal.undef`, because the source clears ids by assigning
`undefined` (keeping the key readable) rather than deleting the key.
-/

namespace LocaleDuplicate

mutual
/-- A JSON-ish JavaScript runtime value: primitives, `null`, `undefined`,
arrays and plain objects. -/
inductive JVal where
  | str (s : String)
  | num (n : Int)
  | bool (b : Bool)
  | null
  | undef
  | arr (a : JArr)
  | obj (o : JObj)
deriving DecidableEq, Repr

/-- A JavaScript array of `JVal`s. -/
inductive JArr where
  | nil
  | cons (v : JVal) (rest : JArr)
deriving DecidableEq, Repr

/-- The ordered own enumerable properties of a JavaScript object. -/
inductive JObj where
  | nil
  | cons (k : String) (v : JVal) (rest : JObj)
deriving DecidableEq, Repr
end

/-- Property read `o[key]`, `none` when the key is absent.  JS objects have
unique keys; on a (non-JS-representable) duplicate the first binding wins. -/
def JObj.lookup : JObj → String → Option JVal
  | .nil, _ => none
  | .cons k v rest, key => if k = key then some v else rest.lookup key

/-- The JS `key in o` test. -/
def JObj.hasKey (o : JObj) (key : String) : Bool :=
  (o.lookup key).isSome

/-- Assignment `o[key] = v` to a key that already exists: the binding keeps
its position. -/
def JObj.setFirst : JObj → String → JVal → JObj
  | .nil, _, _ => .nil
  | .cons k v rest, key, nv =>
    if k = key then .cons k nv rest else .cons k v (rest.setFirst key nv)

/-- Assignment `o[key] = v` to a fresh key: appended at the end. -/
def JObj.push : JObj → String → JVal → JObj
  | .nil, k, v => .cons k v .nil
  | .cons k' v' rest, k, v => .cons k' v' (rest.push k v)

/-- General JS assignment `o[key] = v`. -/
def JObj.assign (o : JObj) (key : String) (v : JVal) : JObj :=
  if o.hasKey key then o.setFirst key v else o.push key v

/-- The ordered list of own keys (`Object.keys`). -/
def JObj.keys : JObj → List String
  | .nil => []
  | .cons k _ rest => k :: rest.keys

/-- Length of a JS array. -/
def JArr.length : JArr → Nat
  | .nil => 0
  | .cons _ rest => rest.length + 1

/-!
The ID-stripping transform, `removeBlockItemIds` (ConfigScreen.tsx lines
117-157; `removeBlockItemIdsMutable` of fieldUtils.ts lines 84-123 has the
identical body).  The source mutates in place:

* on a `type === 'block'` object whose `item` property is a non-null object
  (`typeof item === 'object'`) with an `id` property, it sets `item.id` to
  `undefined`;
* on a `type === 'item'` object with an `id` property, it sets `id` to
  `undefined`;
* it then recurses into every property value of the (mutated) object, and
  elementwise into arrays; other values are left alone.

The pure embedding threads the two pending clears as boolean flags over the
bindings instead of mutating first and traversing second: the flags are
exactly the matched conditions computed on the object before any clear, and
a flagged traversal replaces the first `id` binding (resp. patches the first
`item` binding) with `undefined` in the position the in-place assignment
would have written it.  Theorem `removeBlockItemIds_obj_char` below proves
this traversal equal to the direct clear-then-recurse reading of the source.
-/

/-- Condition of the source's `type === 'block'` clear: the object is tagged
`block` and its `item` property is an object with an `id` property.  (An
array `item` passes the source's `typeof` test but never its `'id' in`
test, so it never matches.) -/
def isBlockMatch (o : JObj) : Bool :=
  o.lookup "type" = some (.str "block") &&
    match o.lookup "item" with
    | some (.obj io) => io.hasKey "id"
    | _ => false

/-- Condition of the source's `type === 'item'` clear. -/
def isItemMatch (o : JObj) : Bool :=
  o.lookup "type" = some (.str "item") && o.hasKey "id"

mutual
/-- `removeBlockItemIds` of ConfigScreen.tsx (lines 117-157), as a pure
function from the pre-state to the post-state of its argument. -/
def removeBlockItemIds : JVal → JVal
  | .arr a => .arr (removeBlockItemIdsArr a)
  | .obj o => .obj (removeBlockItemIdsObj (isBlockMatch o) (isItemMatch o) o)
  | v => v

/-- Elementwise recursion over an array (the `Array.isArray` branch). -/
def removeBlockItemIdsArr : JArr → JArr
  | .nil => .nil
  | .cons v rest => .cons (removeBlockItemIds v) (removeBlockItemIdsArr rest)

/-- Traversal of an object's bindings carrying the two pending clears.
`blkP` is set while the first `item` binding (the one `o.item` denotes) is
still ahead and must receive the block clear; `idP` while the first `id`
binding is still ahead and must be set to `undefined`.  A cleared `id`
recurses as `removeBlockItemIds undefined = undefined`, written directly. -/
def removeBlockItemIdsObj : Bool → Bool → JObj → JObj
  | _, _, .nil => .nil
  | blkP, idP, .cons k v rest =>
    if idP && k = "id" then
      .cons k JVal.undef (removeBlockItemIdsObj blkP false rest)
    else if blkP && k = "item" then
      .cons k (removeBlockItemIdsBlockItemVal v) (removeBlockItemIdsObj false idP rest)
    else
      .cons k (removeBlockItemIds v) (removeBlockItemIdsObj blkP idP rest)

/-- Processing of the first `item` binding's value under a pending block
clear.  When the value is the object with an `id` that made the block
condition fire, it is traversed with its own block condition and a forced
`id` clear, which agrees with first assigning `item.id = undefined` and
then recursing (an object's `type`/`item` lookups are unchanged by clearing
its `id`); any other value — unreachable when the flag construction put the
pending clear here — is processed exactly as `removeBlockItemIds` would. -/
def removeBlockItemIdsBlockItemVal : JVal → JVal
  | .obj io =>
    if io.hasKey "id" then .obj (removeBlockItemIdsObj (isBlockMatch io) true io)
    else .obj (removeBlockItemIdsObj (isBlockMatch io) (isItemMatch io) io)
  | .arr a => .arr (removeBlockItemIdsArr a)
  | v => v
end

/-- `removeBlockItemIdsMutable` of fieldUtils.ts (lines 84-123): its body is
token-for-token the body of ConfigScreen's `removeBlockItemIds`. -/
def removeBlockItemIdsMutable : JVal → JVal := removeBlockItemIds

mutual
/-- `removeBlockItemIdsImmutable` of fieldUtils.ts (lines 59-78): primitives
and `null` unchanged, arrays mapped, objects rebuilt dropping every `id`
key. -/
def removeBlockItemIdsImmutable : JVal → JVal
  | .arr a => .arr (removeBlockItemIdsImmutableArr a)
  | .obj o => .obj (removeBlockItemIdsImmutableObj o)
  | v => v

/-- The `value.map(...)` branch of the immutable variant. -/
def removeBlockItemIdsImmutableArr : JArr → JArr
  | .nil => .nil
  | .cons v rest =>
    .cons (removeBlockItemIdsImmutable v) (removeBlockItemIdsImmutableArr rest)

/-- The `Object.entries` loop of the immutable variant: every `id` key is
excluded, other values are processed recursively. -/
def removeBlockItemIdsImmutableObj : JObj → JObj
  | .nil => .nil
  | .cons k v rest =>
    if k = "id" then removeBlockItemIdsImmutableObj rest
    else .cons k (removeBlockItemIdsImmutable v) (removeBlockItemIdsImmutableObj rest)
end

/-!
The per-record field loop of `duplicateLocaleContent`
(ConfigScreen.tsx lines 256-300).
-/

/-- The reserved attribute keys skipped by the field loop (lines 265-276). -/
def systemFieldKeys : List String :=
  ["id", "type", "meta", "created_at", "updated_at", "is_valid", "item_type"]

/-- The `continue` condition of the field loop: keys prefixed with `_`
(`fieldKey.startsWith('_')`, i.e. the first character is an underscore) or
in the reserved list are never copied. -/
def isSkippedFieldKey (k : String) : Bool :=
  (match k.data with
    | [] => false
    | c :: _ => c = '_') || systemFieldKeys.contains k

/-- The localization test of lines 281-285:
`fieldValue && typeof fieldValue === 'object' &&
Object.keys(fieldValue).includes(sourceLocale)`.  Arrays pass the `typeof`
test and expose their indices as string keys; primitives, `null` and
`undefined` fail it. -/
def jsKeysInclude : JVal → String → Bool
  | .obj m, s => m.hasKey s
  | .arr a, s => (List.range a.length).any (fun i => toString i == s)
  | _, _ => false

/-- The object spread `{ ...fieldValue }` of line 287 for the values that
reach it (objects are copied binding by binding; an array spreads into an
object keyed by its decimal indices).  Other values never reach the spread
because `jsKeysInclude` has no key to offer. -/
def JArr.indexedObj : JArr → Nat → JObj
  | .nil, _ => .nil
  | .cons v rest, i => .cons (toString i) v (rest.indexedObj (i + 1))

/-- Spread of a field value into a fresh object. -/
def jsSpread : JVal → JObj
  | .obj m => m
  | .arr a => a.indexedObj 0
  | _ => .nil

/-- Property read `fieldValue[sourceLocale]` of lines 290-292 (`undefined`
when absent; an array answers only its canonical decimal index strings). -/
def jsGet : JVal → String → JVal
  | .obj m, s => (m.lookup s).getD JVal.undef
  | .arr a, s => ((a.indexedObj 0).lookup s).getD JVal.undef
  | _, _ => JVal.undef

/-- Application of `removeBlockItemIds` to the whole accumulated `updates`
object (line 295): the result of `removeBlockItemIds (.obj u)` with the
`.obj` constructor peeled off. -/
def stripUpdates (u : JObj) : JObj :=
  removeBlockItemIdsObj (isBlockMatch u) (isItemMatch u) u

/-- One iteration of the field loop (lines 261-297): skipped keys are
ignored; a localized value is cloned shallowly, its target-locale key is
set to the source-locale value, the clone is stored under the field key and
the whole accumulated map is re-stripped. -/
def processField (src tgt : String) (updates : JObj) (fk : String) (v : JVal) : JObj :=
  if isSkippedFieldKey fk then updates
  else if jsKeysInclude v src then
    stripUpdates (updates.assign fk (.obj ((jsSpread v).assign tgt (jsGet v src))))
  else updates

/-- The field loop folded over `Object.entries(record.attributes)`. -/
def buildUpdatesGo (src tgt : String) : JObj → JObj → JObj
  | updates, .nil => updates
  | updates, .cons fk v rest => buildUpdatesGo src tgt (processField src tgt updates fk v) rest

/-- The `updates` object a record's field loop produces, starting from the
empty map of line 258. -/
def buildUpdates (src tgt : String) (attrs : JObj) : JObj :=
  buildUpdatesGo src tgt .nil attrs

/-!
Progress events and the engine's model/record loops
(ConfigScreen.tsx lines 178-366).  Wall-clock timestamps (`Date.now()`) are
irrelevant to every verified property and are modelled as `0`.
-/

/-- The `type` field of a ProgressUpdate. -/
inductive EvType where
  | info
  | success
  | error
deriving DecidableEq, Repr

/-- The `ProgressUpdate` interface (lines 67-75). -/
structure ProgressUpdate where
  message : String
  type : EvType
  timestamp : Int
  progress : Option Nat
  modelId : Option String
  modelName : Option String
  recordId : Option String
deriving DecidableEq, Repr

/-- One observable action of the engine: a call of the `onProgress`
callback, or a `client.items.update` request for a record. -/
inductive EngineEv where
  | emit (u : ProgressUpdate)
  | apiUpdate (recordId : String) (updates : JObj)
deriving DecidableEq, Repr

/-- A content model as returned by `client.itemTypes.list()`. -/
structure ItemType where
  id : String
  name : String
  api_key : String
  modular_block : Bool
deriving DecidableEq, Repr

/-- A record as yielded by `client.items.rawListPagedIterator`. -/
structure RecordItem where
  id : String
  attributes : JObj
deriving DecidableEq, Repr

/-- The engine's environment: the host API's model list, its record
pagination per model `api_key`, the outcome of each `client.items.update`
call, and the successive values read from the shared abort cell
(`abortSignal.current`, one read per model-level and per record-level
check, in order). -/
structure Env where
  allModels : List ItemType
  recordsFor : String → List RecordItem
  updateOk : String → Bool
  abortReads : Nat → Bool

/-- Message of the two abort events (lines 216 and 248). -/
def abortMessage : String := "Process aborted by user"

/-- Message of the per-record update failure event (line 313). -/
def updateFailedMessage : String :=
  "Failed to update record: Check if the original record is currently invalid, and fix validation errors present"

/-- Events contributed by one record after its abort check (lines 256-326):
nothing when the accumulated update map is empty; otherwise the update call
followed by a success event (empty message, record/model ids attached) or,
when the call fails, by the failure event — the rethrown update error is
swallowed by the per-record catch, so nothing else happens. -/
def recordEvents (env : Env) (m : ItemType) (src tgt : String) (r : RecordItem) : List EngineEv :=
  let updates := buildUpdates src tgt r.attributes
  if updates.keys.length > 0 then
    EngineEv.apiUpdate r.id updates ::
      (if env.updateOk r.id then
        [EngineEv.emit ⟨"", .success, 0, none, some m.id, some m.name, some r.id⟩]
      else
        [EngineEv.emit ⟨updateFailedMessage, .error, 0, none, some m.id, some m.name, some r.id⟩])
  else []

/-- The record loop of one model (lines 239-327): before each record the
abort cell is read (consuming one read index); if it is set the terminal
abort event is emitted (with the model's progress value) and the whole run
returns.  The returned triple is the emitted events, the next read index
and whether the run was aborted. -/
def recordLoop (env : Env) (m : ItemType) (src tgt : String) (mp : Nat) :
    List RecordItem → Nat → List EngineEv × Nat × Bool
  | [], n => ([], n, false)
  | r :: rest, n =>
    if env.abortReads n then
      ([EngineEv.emit ⟨abortMessage, .error, 0, some mp, none, none, none⟩], n + 1, true)
    else
      let evs := recordEvents env m src tgt r
      let res := recordLoop env m src tgt mp rest (n + 1)
      (evs ++ res.1, res.2)

/-- The model's progress percentage `5 + Math.round((i / models.length) * 90)`
(line 225), with exact rational rounding standing in for the IEEE-754
computation (their results agree on these small quotients and no verified
property depends on the value). -/
def modelProgress (i len : Nat) : Nat :=
  5 + (180 * i + len) / (2 * len)

/-- The model loop (lines 212-339): before each model the abort cell is
read; if set, the terminal abort event (progress 5) is emitted and the run
returns.  Otherwise the `Processing model` info event is emitted and the
model's records are processed; a record-level abort likewise ends the whole
run. -/
def modelLoop (env : Env) (src tgt : String) (len : Nat) :
    List ItemType → Nat → Nat → List EngineEv × Nat × Bool
  | [], _, n => ([], n, false)
  | m :: rest, i, n =>
    if env.abortReads n then
      ([EngineEv.emit ⟨abortMessage, .error, 0, some 5, none, none, none⟩], n + 1, true)
    else
      let mp := modelProgress i len
      let headEv : EngineEv :=
        .emit ⟨"Processing model: " ++ m.name, .info, 0, some mp, some m.id, some m.name, none⟩
      let res := recordLoop env m src tgt mp (env.recordsFor m.api_key) (n + 1)
      if res.2.2 then
        (headEv :: res.1, res.2.1, true)
      else
        let res' := modelLoop env src tgt len rest (i + 1) res.2.1
        (headEv :: res.1 ++ res'.1, res'.2)

/-- The full engine run `duplicateLocaleContent` (lines 178-366) as the list
of its observable actions: modular-block models are dropped; a provided,
non-empty `selectedModelIds` further filters the models; the model-count
info event precedes the loop; unless the run was aborted, the trailing
`Verifying`/`completed` events finish the trace. -/
def duplicateLocaleContent (env : Env) (src tgt : String)
    (selectedModelIds : Option (List String)) : List EngineEv :=
  let models0 := env.allModels.filter (fun m => !m.modular_block)
  let models :=
    match selectedModelIds with
    | some ids => if ids.length > 0 then models0.filter (fun m => ids.contains m.id) else models0
    | none => models0
  let foundEv : EngineEv :=
    .emit ⟨"Found " ++ toString models.length ++ " content models to process",
      .info, 0, some 5, none, none, none⟩
  let res := modelLoop env src tgt models.length models 0 0
  if res.2.2 then
    foundEv :: res.1
  else
    foundEv :: res.1 ++
      [EngineEv.emit ⟨"Verifying content migration...", .info, 0, some 100, none, none, none⟩,
       EngineEv.emit ⟨"Migration completed successfully!", .success, 0, none, none, none, none⟩]

/-!
The statistics aggregator `updateStatistics` (ConfigScreen.tsx lines
512-560), as a pure state transformer on `DuplicationStats`.
-/

/-- Per-model statistics entry (the values of `modelStats`).  The
`processedRecordIds` map from record id to `true` is modelled as the list
of its keys. -/
structure ModelStat where
  success : Nat
  error : Nat
  total : Nat
  name : String
  processedRecordIds : List String
deriving DecidableEq, Repr

/-- The `DuplicationStats` interface (lines 89-97); `modelStats` is the
ordered association list of the JS object's entries. -/
structure DuplicationStats where
  totalModels : Nat
  totalRecords : Nat
  successfulRecords : Nat
  failedRecords : Nat
  modelStats : List (String × ModelStat)
  startTime : Int
  endTime : Int
deriving DecidableEq, Repr

/-- JS truthiness of an optional string field (`update.modelId && ...`,
`if (update.recordId)`): present and non-empty. -/
def optTruthy : Option String → Bool
  | some s => s ≠ ""
  | none => false

/-- First-binding lookup in `modelStats`. -/
def lookupStat : List (String × ModelStat) → String → Option ModelStat
  | [], _ => none
  | (k, ms) :: rest, key => if k = key then some ms else lookupStat rest key

/-- In-place update of an existing `modelStats` entry. -/
def setStat : List (String × ModelStat) → String → ModelStat → List (String × ModelStat)
  | [], _, _ => []
  | (k, ms) :: rest, key, nms =>
    if k = key then (k, nms) :: rest else (k, ms) :: setStat rest key nms

/-- `updateStatistics` (lines 512-560).  When the update carries truthy
model info, an unknown model is registered with zeroed counters and
`totalModels` becomes the number of `modelStats` keys (JS objects cannot
hold duplicate keys, so that number is the list length).  When it also
carries a truthy record id not yet in the model's processed set, the record
is marked and the model's and the global counters are bumped according to
the update type. -/
def updateStatistics (stats : DuplicationStats) (u : ProgressUpdate) : DuplicationStats :=
  if optTruthy u.modelId && optTruthy u.modelName then
    let mid := u.modelId.getD ""
    let stats1 :=
      match lookupStat stats.modelStats mid with
      | some _ => stats
      | none =>
        let ms := stats.modelStats ++ [(mid, ⟨0, 0, 0, u.modelName.getD "", []⟩)]
        { stats with modelStats := ms, totalModels := ms.length }
    if optTruthy u.recordId then
      let rid := u.recordId.getD ""
      match lookupStat stats1.modelStats mid with
      | none => stats1
      | some ms =>
        if rid ∈ ms.processedRecordIds then stats1
        else
          let ms1 : ModelStat :=
            { ms with processedRecordIds := rid :: ms.processedRecordIds, total := ms.total + 1 }
          match u.type with
          | .success =>
            { stats1 with
                modelStats := setStat stats1.modelStats mid { ms1 with success := ms1.success + 1 },
                totalRecords := stats1.totalRecords + 1,
                successfulRecords := stats1.successfulRecords + 1 }
          | .error =>
            { stats1 with
                modelStats := setStat stats1.modelStats mid { ms1 with error := ms1.error + 1 },
                totalRecords := stats1.totalRecords + 1,
                failedRecords := stats1.failedRecords + 1 }
          | .info =>
            { stats1 with
                modelStats := setStat stats1.modelStats mid ms1,
                totalRecords := stats1.totalRecords + 1 }
    else stats1
  else stats

/-!
The clear-then-recurse characterization of `removeBlockItemIds` on objects.
`clearBlock` and `clearItem` are the two in-place clears of the source
(lines 129-149) read directly as object transformations, and `stripMap` is
the property recursion of lines 152-154.  The characterization theorem
shows the flag-threaded traversal equals this direct reading.
-/

/-- The `type === 'block'` clear (lines 129-140): set `item.id` to
`undefined` when `item` is an object carrying an `id`. -/
def clearBlock (o : JObj) : JObj :=
  match o.lookup "item" with
  | some (.obj io) =>
    if o.lookup "type" = some (.str "block") && io.hasKey "id" then
      o.setFirst "item" (.obj (io.setFirst "id" JVal.undef))
    else o
  | _ => o

/-- The `type === 'item'` clear (lines 143-149). -/
def clearItem (o : JObj) : JObj :=
  if isItemMatch o then o.setFirst "id" JVal.undef else o

/-- The property recursion of lines 152-154: every value through
`removeBlockItemIds`, keys untouched. -/
def stripMap : JObj → JObj
  | .nil => .nil
  | .cons k v rest => .cons k (removeBlockItemIds v) (stripMap rest)

/-!
The clearing property: after the strip, every `type:"item"` node's own `id`
and every `type:"block"` node's `item` object's own `id` reads back as
`undefined` or is absent.  `idsCleared` states this for every node of a
value; it is the read-back contract of section 4.2 of the specification.
-/

/-- An `id` reading is cleared when the key is absent or holds `undefined`. -/
def idOk : Option JVal → Bool
  | none => true
  | some JVal.undef => true
  | some _ => false

/-- Clearing property at a single object node. -/
def clearedAt (o : JObj) : Bool :=
  (if o.lookup "type" = some (.str "item") then idOk (o.lookup "id") else true) &&
  (if o.lookup "type" = some (.str "block") then
    match o.lookup "item" with
    | some (.obj io) => idOk (io.lookup "id")
    | _ => true
  else true)

mutual
/-- Clearing property at every node of a value. -/
def idsCleared : JVal → Bool
  | .arr a => idsClearedArr a
  | .obj o => clearedAt o && idsClearedObj o
  | _ => true

/-- Clearing property for each element of an array. -/
def idsClearedArr : JArr → Bool
  | .nil => true
  | .cons v rest => idsCleared v && idsClearedArr rest

/-- Clearing property for each property value of an object. -/
def idsClearedObj : JObj → Bool
  | .nil => true
  | .cons _ v rest => idsCleared v && idsClearedObj rest
end

/-!
Abort termination (claim C6): machinery relating the run trace to the
abort events.
-/

/-- No emitted event in the list carries the abort message. -/
def noAbortEmit (evs : List EngineEv) : Prop :=
  ∀ u, EngineEv.emit u ∈ evs → u.message ≠ abortMessage

/-!
The per-record field loop: lemmas leading to the duplication postcondition
(C1) and the empty-update skip (C8).
-/

/-- A locale map whose `type` reading is neither the `block` nor the `item`
tag — true of every real localized field, whose keys are locale codes. -/
def benignObj (o : JObj) : Prop :=
  o.lookup "type" ≠ some (.str "block") ∧ o.lookup "type" ≠ some (.str "item")

/-!
The effect of the duplication pass on the fetched record itself (lines
280-297).  The update map is built from shallow clones
`{ ...fieldValue, [targetLocale]: fieldValue[sourceLocale] }`, so every
binding of a clone shares its value with the record, and the in-place
strip of the clone mutates those shared values.
-/

/-- Modelled from source (ConfigScreen.tsx lines 280-297): the fetched
record's locale map after the in-place strip has run over its shallow
clone.  Writes the strip makes at the clone's own top level (undefining a
cleared `id` binding) land in the clone's copied binding and never reach
the record, and the clone's target-locale binding holds the source-locale
value, so the record's own target-locale value is never traversed; every
other binding's value is shared and is stripped in place.  `blkP`/`idP`
thread the clone's pending clears exactly as in `removeBlockItemIdsObj`.
The model follows the clone's bindings positionally through the record's
map, the exact aliasing picture when the target locale is not one of the
keys the clear itself rewrites (`item`); locale codes never are. -/
def sharedStripObj (tgt : String) : Bool → Bool → JObj → JObj
  | _, _, .nil => .nil
  | blkP, idP, .cons k v rest =>
    if idP && k = "id" then .cons k v (sharedStripObj tgt blkP false rest)
    else if blkP && k = "item" then
      .cons k (removeBlockItemIdsBlockItemVal v) (sharedStripObj tgt false idP rest)
    else if k = tgt then .cons k v (sharedStripObj tgt blkP idP rest)
    else .cons k (removeBlockItemIds v) (sharedStripObj tgt blkP idP rest)

/-- Modelled from source: one attribute of the fetched record after the
field loop's pass.  Skipped and source-less fields are never cloned and
stay untouched; a localized object is affected through the clone as
`sharedStripObj` describes, the clone's clear flags computed on the clone;
an array value's elements are shared with the clone's index bindings and
are stripped elementwise. -/
def attributeAfterPass (src tgt fk : String) (v : JVal) : JVal :=
  if isSkippedFieldKey fk then v
  else if jsKeysInclude v src then
    match v with
    | .obj m =>
      .obj (sharedStripObj tgt
        (isBlockMatch (m.assign tgt (jsGet (.obj m) src)))
        (isItemMatch (m.assign tgt (jsGet (.obj m) src))) m)
    | .arr a => .arr (removeBlockItemIdsArr a)
    | v => v
  else v

/-- Modelled from source: the fetched record's whole attribute map after
the duplication pass over it. -/
def attributesAfterPass (src tgt : String) : JObj → JObj
  | .nil => .nil
  | .cons k v rest => .cons k (attributeAfterPass src tgt k v) (attributesAfterPass src tgt rest)

/-- Structural induction over an object's binding list alone (the mutual
recursor needs motives for all three types; binding values are treated as
opaque here). -/
@[induction_eliminator]
theorem JObj.inductionObj {motive : JObj → Prop} (nil : motive .nil)
    (cons : ∀ k v rest, motive rest → motive (.cons k v rest)) : ∀ o, motive o
  | .nil => nil
  | .cons k v rest => cons k v rest (JObj.inductionObj nil cons rest)

/-- Structural induction over an array's spine alone. -/
@[induction_eliminator]
theorem JArr.inductionArr {motive : JArr → Prop} (nil : motive .nil)
    (cons : ∀ v rest, motive rest → motive (.cons v rest)) : ∀ a, motive a
  | .nil => nil
  | .cons v rest => cons v rest (JArr.inductionArr nil cons rest)

/-!
Basic lemmas about object property access and update.
-/

theorem JObj.lookup_setFirst_ne (o : JObj) (k k' : String) (v : JVal) (h : k' ≠ k) :
    (o.setFirst k v).lookup k' = o.lookup k' := by
  induction o with
  | nil => rfl
  | cons k0 v0 rest ih =>
    by_cases hk : k0 = k
    · subst hk
      simp [JObj.setFirst, JObj.lookup, Ne.symm h]
    · simp [JObj.setFirst, JObj.lookup, hk]
      by_cases hk' : k0 = k'
      · simp [hk']
      · simp [hk', ih]

theorem JObj.lookup_setFirst_self (o : JObj) (k : String) (v : JVal)
    (h : o.hasKey k = true) : (o.setFirst k v).lookup k = some v := by
  induction o with
  | nil => simp [JObj.hasKey, JObj.lookup] at h
  | cons k0 v0 rest ih =>
    by_cases hk : k0 = k
    · subst hk; simp [JObj.setFirst, JObj.lookup]
    · simp [JObj.hasKey, JObj.lookup, hk] at h
      simp [JObj.setFirst, JObj.lookup, hk, ih h]

theorem JObj.setFirst_setFirst (o : JObj) (k : String) (v v' : JVal) :
    (o.setFirst k v).setFirst k v' = o.setFirst k v' := by
  induction o with
  | nil => rfl
  | cons k0 v0 rest ih =>
    by_cases hk : k0 = k
    · subst hk; simp [JObj.setFirst]
    · simp [JObj.setFirst, hk, ih]

theorem JObj.hasKey_setFirst (o : JObj) (k k' : String) (v : JVal) :
    (o.setFirst k v).hasKey k' = o.hasKey k' := by
  by_cases h : k' = k
  · subst h
    induction o with
    | nil => rfl
    | cons k0 v0 rest ih =>
      by_cases hk : k0 = k'
      · subst hk; simp [JObj.setFirst, JObj.hasKey, JObj.lookup]
      · simp [JObj.setFirst, JObj.hasKey, JObj.lookup, hk] at ih ⊢; exact ih
  · simp [JObj.hasKey, JObj.lookup_setFirst_ne o k k' v h]

theorem JObj.lookup_push_ne (o : JObj) (k k' : String) (v : JVal) (h : k' ≠ k) :
    (o.push k v).lookup k' = o.lookup k' := by
  induction o with
  | nil =>
    simp [JObj.push, JObj.lookup]
    exact Ne.symm h
  | cons k0 v0 rest ih =>
    by_cases hk : k0 = k'
    · simp [JObj.push, JObj.lookup, hk]
    · simp [JObj.push, JObj.lookup, hk, ih]

theorem JObj.lookup_push_self (o : JObj) (k : String) (v : JVal)
    (h : o.hasKey k = false) : (o.push k v).lookup k = some v := by
  induction o with
  | nil => simp [JObj.push, JObj.lookup]
  | cons k0 v0 rest ih =>
    by_cases hk : k0 = k
    · simp [JObj.hasKey, JObj.lookup, hk] at h
    · simp [JObj.hasKey, JObj.lookup, hk] at h
      simp [JObj.push, JObj.lookup, hk]
      exact ih (by simp [JObj.hasKey, h])

theorem JObj.lookup_assign_self (o : JObj) (k : String) (v : JVal) :
    (o.assign k v).lookup k = some v := by
  unfold JObj.assign
  by_cases h : o.hasKey k = true
  · simp [h, JObj.lookup_setFirst_self o k v h]
  · simp at h
    simp [h, JObj.lookup_push_self o k v h]

theorem JObj.lookup_assign_ne (o : JObj) (k k' : String) (v : JVal) (h : k' ≠ k) :
    (o.assign k v).lookup k' = o.lookup k' := by
  unfold JObj.assign
  by_cases hk : o.hasKey k = true
  · simp [hk, JObj.lookup_setFirst_ne o k k' v h]
  · simp at hk
    simp [hk, JObj.lookup_push_ne o k k' v h]

theorem removeBlockItemIdsObj_false_false (o : JObj) :
    removeBlockItemIdsObj false false o = stripMap o := by
  induction o with
  | nil => rfl
  | cons k v rest ih => simp [removeBlockItemIdsObj, stripMap, ih]

/-- Threading a pending `id` clear over the bindings is the same as clearing
the first `id` binding up front. -/
theorem removeBlockItemIdsObj_idP (b : Bool) (o : JObj) :
    removeBlockItemIdsObj b true o
      = removeBlockItemIdsObj b false (o.setFirst "id" JVal.undef) := by
  induction o generalizing b with
  | nil => rfl
  | cons k v rest ih =>
    by_cases hk : k = "id"
    · subst hk
      simp [removeBlockItemIdsObj, JObj.setFirst, removeBlockItemIds]
    · by_cases hk2 : k = "item"
      · subst hk2
        cases b with
        | false => simp [removeBlockItemIdsObj, JObj.setFirst, hk, ih false]
        | true => simp [removeBlockItemIdsObj, JObj.setFirst, hk, ih false]
      · cases b with
        | false => simp [removeBlockItemIdsObj, JObj.setFirst, hk, hk2, ih false]
        | true => simp [removeBlockItemIdsObj, JObj.setFirst, hk, hk2, ih true]

theorem isBlockMatch_setFirst_id (o : JObj) (v : JVal) :
    isBlockMatch (o.setFirst "id" v) = isBlockMatch o := by
  unfold isBlockMatch
  rw [JObj.lookup_setFirst_ne o "id" "type" v (by decide),
    JObj.lookup_setFirst_ne o "id" "item" v (by decide)]

theorem isItemMatch_setFirst_id_undef (o : JObj) :
    isItemMatch (o.setFirst "id" JVal.undef) = isItemMatch o := by
  unfold isItemMatch
  rw [JObj.lookup_setFirst_ne o "id" "type" JVal.undef (by decide),
    JObj.hasKey_setFirst o "id" "id" JVal.undef]

/-- Processing an object with a forced own-`id` clear pending equals first
writing `undefined` into its first `id` binding and then processing it with
its own conditions — the step that justifies how the traversal handles a
block's `item` object. -/
theorem removeBlockItemIdsObj_forced (b : Bool) (io : JObj) :
    removeBlockItemIdsObj b true io
      = removeBlockItemIdsObj (b) (isItemMatch (io.setFirst "id" JVal.undef))
          (io.setFirst "id" JVal.undef) := by
  cases hi : isItemMatch (io.setFirst "id" JVal.undef) with
  | false => exact removeBlockItemIdsObj_idP b io
  | true =>
    rw [removeBlockItemIdsObj_idP b io, removeBlockItemIdsObj_idP b (io.setFirst "id" JVal.undef),
      JObj.setFirst_setFirst]

/-- Threading a pending block clear over the bindings is the same as
patching the first `item` binding up front. -/
theorem removeBlockItemIdsObj_blkP (o : JObj) (io : JObj)
    (hlk : o.lookup "item" = some (.obj io)) (hid : io.hasKey "id" = true) :
    removeBlockItemIdsObj true false o
      = stripMap (o.setFirst "item" (.obj (io.setFirst "id" JVal.undef))) := by
  induction o with
  | nil => simp [JObj.lookup] at hlk
  | cons k v rest ih =>
    by_cases hk : k = "item"
    · subst hk
      simp [JObj.lookup] at hlk
      subst hlk
      simp [removeBlockItemIdsObj, removeBlockItemIdsBlockItemVal, hid, JObj.setFirst,
        stripMap, removeBlockItemIds, removeBlockItemIdsObj_false_false]
      rw [isBlockMatch_setFirst_id]
      exact removeBlockItemIdsObj_forced (isBlockMatch io) io
    · simp [JObj.lookup, hk] at hlk
      simp [removeBlockItemIdsObj, hk, JObj.setFirst, stripMap, ih hlk]

theorem clearBlock_of_not_match (o : JObj) (h : isBlockMatch o = false) :
    clearBlock o = o := by
  unfold clearBlock
  unfold isBlockMatch at h
  cases hlk : o.lookup "item" with
  | none => rfl
  | some v =>
    cases v with
    | obj io =>
      rw [hlk] at h
      simp at h
      by_cases ht : o.lookup "type" = some (.str "block")
      · simp [ht] at h
        simp [h]
      · simp [ht]
    | str s => rfl
    | num n => rfl
    | bool b => rfl
    | null => rfl
    | undef => rfl
    | arr a => rfl

/-- The clear-then-recurse characterization: on an object,
`removeBlockItemIds` performs the source's two in-place clears and then maps
itself over the property values. -/
theorem removeBlockItemIds_obj_char (o : JObj) :
    removeBlockItemIds (.obj o) = .obj (stripMap (clearItem (clearBlock o))) := by
  show JVal.obj (removeBlockItemIdsObj (isBlockMatch o) (isItemMatch o) o) = _
  cases hb : isBlockMatch o with
  | true =>
    have hb' := hb
    unfold isBlockMatch at hb'
    simp at hb'
    obtain ⟨ht, hitem⟩ := hb'
    cases hlk : o.lookup "item" with
    | none => rw [hlk] at hitem; simp at hitem
    | some v =>
      cases v with
      | obj io =>
        rw [hlk] at hitem
        have hid : io.hasKey "id" = true := by simpa using hitem
        have hitm : isItemMatch o = false := by
          unfold isItemMatch; simp [ht]
        have hcb : clearBlock o = o.setFirst "item" (.obj (io.setFirst "id" JVal.undef)) := by
          unfold clearBlock
          simp [hlk, ht, hid]
        have hci : clearItem (clearBlock o) = clearBlock o := by
          unfold clearItem isItemMatch
          rw [hcb, JObj.lookup_setFirst_ne o "item" "type" _ (by decide)]
          simp [ht]
        rw [hitm, hci, hcb, removeBlockItemIdsObj_blkP o io hlk hid]
      | str s => rw [hlk] at hitem; simp at hitem
      | num n => rw [hlk] at hitem; simp at hitem
      | bool b => rw [hlk] at hitem; simp at hitem
      | null => rw [hlk] at hitem; simp at hitem
      | undef => rw [hlk] at hitem; simp at hitem
      | arr a => rw [hlk] at hitem; simp at hitem
  | false =>
    rw [clearBlock_of_not_match o hb]
    cases hi : isItemMatch o with
    | true =>
      have : clearItem o = o.setFirst "id" JVal.undef := by unfold clearItem; simp [hi]
      rw [this, removeBlockItemIdsObj_idP false o, removeBlockItemIdsObj_false_false]
    | false =>
      have : clearItem o = o := by unfold clearItem; simp [hi]
      rw [this, removeBlockItemIdsObj_false_false]

theorem stripMap_lookup (o : JObj) (k : String) :
    (stripMap o).lookup k = (o.lookup k).map removeBlockItemIds := by
  induction o with
  | nil => rfl
  | cons k0 v0 rest ih =>
    by_cases hk : k0 = k
    · simp [stripMap, JObj.lookup, hk]
    · simp [stripMap, JObj.lookup, hk, ih]

theorem stripMap_keys (o : JObj) : (stripMap o).keys = o.keys := by
  induction o with
  | nil => rfl
  | cons k0 v0 rest ih => simp [stripMap, JObj.keys, ih]

theorem removeBlockItemIdsObj_keys (o : JObj) : ∀ b i,
    (removeBlockItemIdsObj b i o).keys = o.keys := by
  induction o with
  | nil => intro b i; rfl
  | cons k0 v0 rest ih =>
    intro b i
    by_cases h1 : i = true ∧ k0 = "id"
    · obtain ⟨h1a, h1b⟩ := h1
      subst h1a; subst h1b
      simp [removeBlockItemIdsObj, JObj.keys, ih]
    · by_cases h2 : b = true ∧ k0 = "item"
      · obtain ⟨h2a, h2b⟩ := h2
        subst h2a; subst h2b
        cases i with
        | true =>
          simp at h1
          simp [removeBlockItemIdsObj, h1, JObj.keys, ih]
        | false => simp [removeBlockItemIdsObj, JObj.keys, ih]
      · cases i with
        | true =>
          cases b with
          | true =>
            simp at h1 h2
            simp [removeBlockItemIdsObj, h1, h2, JObj.keys, ih]
          | false =>
            simp at h1
            simp [removeBlockItemIdsObj, h1, JObj.keys, ih]
        | false =>
          cases b with
          | true =>
            simp at h2
            simp [removeBlockItemIdsObj, h2, JObj.keys, ih]
          | false => simp [removeBlockItemIdsObj, JObj.keys, ih]

theorem JObj.hasKey_iff_mem_keys (o : JObj) (k : String) :
    o.hasKey k = true ↔ k ∈ o.keys := by
  induction o with
  | nil => simp [JObj.hasKey, JObj.lookup, JObj.keys]
  | cons k0 v0 rest ih =>
    by_cases hk : k0 = k
    · simp [JObj.hasKey, JObj.lookup, JObj.keys, hk]
    · simp [JObj.hasKey, JObj.lookup, JObj.keys, hk, Ne.symm hk] at ih ⊢
      exact ih

theorem JObj.lookup_eq_none_of_not_hasKey (o : JObj) (k : String)
    (h : o.hasKey k = false) : o.lookup k = none := by
  unfold JObj.hasKey at h
  cases hl : o.lookup k with
  | none => rfl
  | some v => rw [hl] at h; simp at h

theorem JObj.setFirst_eq_of_lookup (o : JObj) (k : String) (w : JVal)
    (h : o.lookup k = some w) : o.setFirst k w = o := by
  induction o with
  | nil => rfl
  | cons k0 v0 rest ih =>
    by_cases hk : k0 = k
    · simp [JObj.lookup, hk] at h
      simp [JObj.setFirst, hk, h]
    · simp [JObj.lookup, hk] at h
      simp [JObj.setFirst, hk, ih h]

/-- Constructor shapes survive the strip. -/
theorem removeBlockItemIds_eq_str_iff (v : JVal) (s : String) :
    removeBlockItemIds v = .str s ↔ v = .str s := by
  cases v <;> simp [removeBlockItemIds]

/-!
Size bounds for the two clears, supporting the well-founded inductions
below ("well-founded" only in proofs; all functions are structural).
-/

theorem JVal.one_le_sizeOf (v : JVal) : 1 ≤ sizeOf v := by
  cases v <;> simp

theorem JObj.sizeOf_setFirst_le (o : JObj) (k : String) (w : JVal)
    (h : ∀ v, o.lookup k = some v → sizeOf w ≤ sizeOf v) :
    sizeOf (o.setFirst k w) ≤ sizeOf o := by
  induction o with
  | nil => simp [JObj.setFirst]
  | cons k0 v0 rest ih =>
    by_cases hk : k0 = k
    · have hv := h v0 (by simp [JObj.lookup, hk])
      simp [JObj.setFirst, hk]
      omega
    · have ih' := ih (fun v hv => h v (by simp [JObj.lookup, hk]; exact hv))
      simp [JObj.setFirst, hk]
      omega

theorem sizeOf_clearBlock_le (o : JObj) : sizeOf (clearBlock o) ≤ sizeOf o := by
  unfold clearBlock
  cases hlk : o.lookup "item" with
  | none => simp
  | some v =>
    cases v with
    | obj io =>
      by_cases hc : o.lookup "type" = some (.str "block") ∧ io.hasKey "id" = true
      · obtain ⟨h1, h2⟩ := hc
        simp [h1, h2]
        apply JObj.sizeOf_setFirst_le
        intro v hv
        rw [hlk] at hv
        cases hv
        have : sizeOf (io.setFirst "id" JVal.undef) ≤ sizeOf io := by
          apply JObj.sizeOf_setFirst_le
          intro v _
          have := JVal.one_le_sizeOf v
          simp
          omega
        simp
        omega
      · rcases not_and_or.mp hc with h | h
        · simp [h]
        · simp at h
          simp [h]
    | str s => simp
    | num n => simp
    | bool b => simp
    | null => simp
    | undef => simp
    | arr a => simp

theorem sizeOf_clearItem_le (o : JObj) : sizeOf (clearItem o) ≤ sizeOf o := by
  unfold clearItem
  by_cases h : isItemMatch o = true
  · simp [h]
    apply JObj.sizeOf_setFirst_le
    intro v _
    have := JVal.one_le_sizeOf v
    simp
    omega
  · simp at h
    simp [h]

theorem clearBlock_lookup_of_ne (o : JObj) (k : String) (h : k ≠ "item") :
    (clearBlock o).lookup k = o.lookup k := by
  unfold clearBlock
  cases hlk : o.lookup "item" with
  | none => rfl
  | some v =>
    cases v with
    | obj io =>
      by_cases hc : (o.lookup "type" = some (.str "block") && io.hasKey "id") = true
      · simp [hc]
        exact JObj.lookup_setFirst_ne o "item" k _ h
      · simp at hc
        by_cases ht : o.lookup "type" = some (.str "block")
        · simp [ht, hc ht]
        · simp [ht]
    | str s => rfl
    | num n => rfl
    | bool b => rfl
    | null => rfl
    | undef => rfl
    | arr a => rfl

theorem clearItem_lookup_of_ne (o : JObj) (k : String) (h : k ≠ "id") :
    (clearItem o).lookup k = o.lookup k := by
  unfold clearItem
  by_cases hc : isItemMatch o = true
  · simp [hc]
    exact JObj.lookup_setFirst_ne o "id" k _ h
  · simp at hc
    simp [hc]

theorem hasKey_of_lookup (o : JObj) (k : String) (v : JVal)
    (h : o.lookup k = some v) : o.hasKey k = true := by
  unfold JObj.hasKey
  rw [h]
  rfl

/-- The own `id` of the object `clearItem (clearBlock io')` reads as the
own `id` of `io'` up to a possible clear to `undefined`. -/
theorem clears_lookup_id_undef (io : JObj) (h : io.lookup "id" = some JVal.undef) :
    (clearItem (clearBlock io)).lookup "id" = some JVal.undef := by
  have h1 : (clearBlock io).lookup "id" = some JVal.undef := by
    rw [clearBlock_lookup_of_ne io "id" (by decide)]; exact h
  unfold clearItem
  by_cases hc : isItemMatch (clearBlock io) = true
  · simp [hc]
    exact JObj.lookup_setFirst_self _ "id" _ (hasKey_of_lookup _ _ _ h1)
  · simp at hc
    simp [hc, h1]

theorem clears_lookup_id_none (io : JObj) (h : io.lookup "id" = none) :
    (clearItem (clearBlock io)).lookup "id" = none := by
  have h1 : (clearBlock io).lookup "id" = none := by
    rw [clearBlock_lookup_of_ne io "id" (by decide)]; exact h
  unfold clearItem
  by_cases hc : isItemMatch (clearBlock io) = true
  · exfalso
    unfold isItemMatch JObj.hasKey at hc
    rw [h1] at hc
    simp at hc
  · simp at hc
    simp [hc, h1]

/-- Reading the `item` property of `clearBlock o`. -/
theorem clearBlock_lookup_item (o : JObj) :
    (clearBlock o).lookup "item"
      = match o.lookup "item" with
        | some (.obj io) =>
          if o.lookup "type" = some (.str "block") && io.hasKey "id" then
            some (.obj (io.setFirst "id" JVal.undef))
          else some (.obj io)
        | r => r := by
  unfold clearBlock
  cases hlk : o.lookup "item" with
  | none => simp [hlk]
  | some w =>
    cases w with
    | obj io =>
      by_cases hc : (o.lookup "type" = some (.str "block") && io.hasKey "id") = true
      · simp only [hc, if_true]
        exact JObj.lookup_setFirst_self o "item" _ (hasKey_of_lookup _ _ _ hlk)
      · simp only [hc, if_false]
        simp at hc
        by_cases ht : o.lookup "type" = some (.str "block")
        · simp [ht, hc ht, hlk]
        · simp [ht, hlk]
    | str s => simp [hlk]
    | num n => simp [hlk]
    | bool b => simp [hlk]
    | null => simp [hlk]
    | undef => simp [hlk]
    | arr a => simp [hlk]

/-- After the strip, the node itself satisfies the clearing property. -/
theorem clearedAt_strip (o : JObj) :
    clearedAt (stripMap (clearItem (clearBlock o))) = true := by
  have htype : (stripMap (clearItem (clearBlock o))).lookup "type"
      = (o.lookup "type").map removeBlockItemIds := by
    rw [stripMap_lookup, clearItem_lookup_of_ne _ "type" (by decide),
      clearBlock_lookup_of_ne _ "type" (by decide)]
  unfold clearedAt
  simp only [Bool.and_eq_true]
  refine ⟨?_, ?_⟩
  · -- the `type:"item"` part
    by_cases ht : (stripMap (clearItem (clearBlock o))).lookup "type" = some (.str "item")
    · rw [ht] at htype
      have ht0 : o.lookup "type" = some (.str "item") := by
        cases hlk : o.lookup "type" with
        | none => rw [hlk] at htype; simp at htype
        | some w =>
          rw [hlk] at htype
          have hw : removeBlockItemIds w = .str "item" := by
            simpa using htype.symm
          rw [(removeBlockItemIds_eq_str_iff w "item").mp hw]
      rw [if_pos ht, stripMap_lookup]
      have hcb : (clearBlock o).lookup "type" = some (.str "item") := by
        rw [clearBlock_lookup_of_ne o "type" (by decide)]; exact ht0
      by_cases hid : (clearBlock o).hasKey "id" = true
      · have hmatch : isItemMatch (clearBlock o) = true := by
          unfold isItemMatch; simp [hcb, hid]
        unfold clearItem
        rw [hmatch]
        simp [JObj.lookup_setFirst_self _ "id" _ hid, idOk, removeBlockItemIds]
      · have hmatch : isItemMatch (clearBlock o) = false := by
          unfold isItemMatch; simp [hid]
        unfold clearItem
        rw [hmatch]
        simp at hid
        simp [JObj.lookup_eq_none_of_not_hasKey _ _ hid, idOk]
    · simp [ht]
  · -- the `type:"block"` part
    by_cases ht : (stripMap (clearItem (clearBlock o))).lookup "type" = some (.str "block")
    · rw [ht] at htype
      have ht0 : o.lookup "type" = some (.str "block") := by
        cases hlk : o.lookup "type" with
        | none => rw [hlk] at htype; simp at htype
        | some w =>
          rw [hlk] at htype
          have hw : removeBlockItemIds w = .str "block" := by
            simpa using htype.symm
          rw [(removeBlockItemIds_eq_str_iff w "block").mp hw]
      have hci : clearItem (clearBlock o) = clearBlock o := by
        unfold clearItem
        have hmatch : isItemMatch (clearBlock o) = false := by
          unfold isItemMatch
          rw [clearBlock_lookup_of_ne o "type" (by decide), ht0]
          simp
        simp [hmatch]
      rw [if_pos ht, hci, stripMap_lookup]
      cases hitem : o.lookup "item" with
      | none =>
        have hcb2 : (clearBlock o).lookup "item" = none := by
          rw [clearBlock_lookup_item, hitem]
        rw [hcb2]
        simp
      | some w =>
        cases w with
        | obj io =>
          by_cases hid : io.hasKey "id" = true
          · have hcb2 : (clearBlock o).lookup "item"
                = some (.obj (io.setFirst "id" JVal.undef)) := by
              rw [clearBlock_lookup_item, hitem]
              simp [ht0, hid]
            rw [hcb2, Option.map_some', removeBlockItemIds_obj_char]
            have hid2 : (io.setFirst "id" JVal.undef).lookup "id" = some JVal.undef :=
              JObj.lookup_setFirst_self io "id" _ hid
            show idOk ((stripMap (clearItem (clearBlock
              (io.setFirst "id" JVal.undef)))).lookup "id") = true
            rw [stripMap_lookup, clears_lookup_id_undef _ hid2]
            simp [idOk, removeBlockItemIds]
          · have hidb : io.hasKey "id" = false := by simpa using hid
            have hcb2 : (clearBlock o).lookup "item" = some (.obj io) := by
              rw [clearBlock_lookup_item, hitem]
              simp [hidb]
            rw [hcb2, Option.map_some', removeBlockItemIds_obj_char]
            show idOk ((stripMap (clearItem (clearBlock io))).lookup "id") = true
            rw [stripMap_lookup,
              clears_lookup_id_none _ (JObj.lookup_eq_none_of_not_hasKey _ _ hidb)]
            simp [idOk]
        | str s =>
          have hcb2 : (clearBlock o).lookup "item" = some (.str s) := by
            rw [clearBlock_lookup_item, hitem]
          rw [hcb2]
          simp [removeBlockItemIds]
        | num n =>
          have hcb2 : (clearBlock o).lookup "item" = some (.num n) := by
            rw [clearBlock_lookup_item, hitem]
          rw [hcb2]
          simp [removeBlockItemIds]
        | bool b =>
          have hcb2 : (clearBlock o).lookup "item" = some (.bool b) := by
            rw [clearBlock_lookup_item, hitem]
          rw [hcb2]
          simp [removeBlockItemIds]
        | null =>
          have hcb2 : (clearBlock o).lookup "item" = some .null := by
            rw [clearBlock_lookup_item, hitem]
          rw [hcb2]
          simp [removeBlockItemIds]
        | undef =>
          have hcb2 : (clearBlock o).lookup "item" = some JVal.undef := by
            rw [clearBlock_lookup_item, hitem]
          rw [hcb2]
          simp [removeBlockItemIds]
        | arr a =>
          have hcb2 : (clearBlock o).lookup "item" = some (.arr a) := by
            rw [clearBlock_lookup_item, hitem]
          rw [hcb2]
          simp [removeBlockItemIds]
    · simp [ht]

mutual
/-- Every node of a stripped value satisfies the clearing property. -/
theorem idsCleared_strip : ∀ v, idsCleared (removeBlockItemIds v) = true
  | .str _ => rfl
  | .num _ => rfl
  | .bool _ => rfl
  | .null => rfl
  | JVal.undef => rfl
  | .arr a => by
    show idsCleared (.arr (removeBlockItemIdsArr a)) = true
    show idsClearedArr (removeBlockItemIdsArr a) = true
    exact idsClearedArr_strip a
  | .obj o => by
    rw [removeBlockItemIds_obj_char]
    show (clearedAt (stripMap (clearItem (clearBlock o)))
      && idsClearedObj (stripMap (clearItem (clearBlock o)))) = true
    rw [clearedAt_strip, idsClearedObj_stripMap (clearItem (clearBlock o))]
    rfl
termination_by v => sizeOf v
decreasing_by
  · simp
  · have h1 := sizeOf_clearItem_le (clearBlock o)
    have h2 := sizeOf_clearBlock_le o
    simp
    omega

/-- Elementwise clearing for stripped arrays. -/
theorem idsClearedArr_strip : ∀ a, idsClearedArr (removeBlockItemIdsArr a) = true
  | .nil => rfl
  | .cons v rest => by
    show (idsCleared (removeBlockItemIds v)
      && idsClearedArr (removeBlockItemIdsArr rest)) = true
    rw [idsCleared_strip v, idsClearedArr_strip rest]
    rfl
termination_by a => sizeOf a
decreasing_by
  all_goals simp
  all_goals omega

/-- Elementwise clearing for mapped object bindings. -/
theorem idsClearedObj_stripMap : ∀ o, idsClearedObj (stripMap o) = true
  | .nil => rfl
  | .cons _ v rest => by
    show (idsCleared (removeBlockItemIds v) && idsClearedObj (stripMap rest)) = true
    rw [idsCleared_strip v, idsClearedObj_stripMap rest]
    rfl
termination_by o => sizeOf o
decreasing_by
  all_goals simp
  all_goals omega
end

theorem idOk_some (w : JVal) (h : idOk (some w) = true) : w = JVal.undef := by
  cases w
  case undef => rfl
  all_goals simp [idOk] at h

/-- On a node satisfying the clearing property, the `block` clear does
nothing. -/
theorem clearBlock_of_clearedAt (o : JObj) (h : clearedAt o = true) :
    clearBlock o = o := by
  unfold clearBlock
  cases hlk : o.lookup "item" with
  | none => rfl
  | some w =>
    cases w with
    | obj io =>
      by_cases hc : (o.lookup "type" = some (.str "block") && io.hasKey "id") = true
      · simp only [hc, if_true]
        simp only [Bool.and_eq_true, decide_eq_true_eq] at hc
        obtain ⟨ht, hid⟩ := hc
        unfold clearedAt at h
        rw [ht] at h
        simp only [Bool.and_eq_true] at h
        rw [hlk] at h
        have h2 := h.2
        simp only [if_pos rfl] at h2
        cases hw : io.lookup "id" with
        | none =>
          unfold JObj.hasKey at hid
          rw [hw] at hid
          simp at hid
        | some w0 =>
          rw [hw] at h2
          have hw0 := idOk_some w0 h2
          subst hw0
          rw [JObj.setFirst_eq_of_lookup io "id" _ hw,
            JObj.setFirst_eq_of_lookup o "item" _ hlk]
      · simp [hc]
    | str s => rfl
    | num n => rfl
    | bool b => rfl
    | null => rfl
    | undef => rfl
    | arr a => rfl

/-- On a node satisfying the clearing property, the `item` clear does
nothing. -/
theorem clearItem_of_clearedAt (o : JObj) (h : clearedAt o = true) :
    clearItem o = o := by
  unfold clearItem
  by_cases hc : isItemMatch o = true
  · simp only [hc, if_true]
    unfold isItemMatch at hc
    simp only [Bool.and_eq_true, decide_eq_true_eq] at hc
    obtain ⟨ht, hid⟩ := hc
    unfold clearedAt at h
    rw [ht] at h
    simp only [Bool.and_eq_true] at h
    have h1 := h.1
    simp only [if_pos rfl] at h1
    cases hw : o.lookup "id" with
    | none =>
      unfold JObj.hasKey at hid
      rw [hw] at hid
      simp at hid
    | some w0 =>
      rw [hw] at h1
      have hw0 := idOk_some w0 h1
      subst hw0
      exact JObj.setFirst_eq_of_lookup o "id" _ hw
  · simp at hc
    simp [hc]

mutual
/-- Re-stripping a value whose nodes already satisfy the clearing property
is a no-op (the "already clean" direction). -/
theorem removeBlockItemIds_of_idsCleared : ∀ v, idsCleared v = true → removeBlockItemIds v = v
  | .str _, _ => rfl
  | .num _, _ => rfl
  | .bool _, _ => rfl
  | .null, _ => rfl
  | JVal.undef, _ => rfl
  | .arr a, h => by
    show JVal.arr (removeBlockItemIdsArr a) = .arr a
    rw [removeBlockItemIdsArr_of_idsClearedArr a h]
  | .obj o, h => by
    have h' : (clearedAt o && idsClearedObj o) = true := h
    simp only [Bool.and_eq_true] at h'
    rw [removeBlockItemIds_obj_char, clearBlock_of_clearedAt o h'.1,
      clearItem_of_clearedAt o h'.1, stripMap_of_idsClearedObj o h'.2]

/-- Elementwise no-op on clean arrays. -/
theorem removeBlockItemIdsArr_of_idsClearedArr :
    ∀ a, idsClearedArr a = true → removeBlockItemIdsArr a = a
  | .nil, _ => rfl
  | .cons v rest, h => by
    have h' : (idsCleared v && idsClearedArr rest) = true := h
    simp only [Bool.and_eq_true] at h'
    show JArr.cons (removeBlockItemIds v) (removeBlockItemIdsArr rest) = .cons v rest
    rw [removeBlockItemIds_of_idsCleared v h'.1,
      removeBlockItemIdsArr_of_idsClearedArr rest h'.2]

/-- Elementwise no-op on clean object bindings. -/
theorem stripMap_of_idsClearedObj : ∀ o, idsClearedObj o = true → stripMap o = o
  | .nil, _ => rfl
  | .cons k v rest, h => by
    have h' : (idsCleared v && idsClearedObj rest) = true := h
    simp only [Bool.and_eq_true] at h'
    show JObj.cons k (removeBlockItemIds v) (stripMap rest) = .cons k v rest
    rw [removeBlockItemIds_of_idsCleared v h'.1, stripMap_of_idsClearedObj rest h'.2]
end

/-- Idempotence of the strip, derived from the two directions. -/
theorem removeBlockItemIds_idem (v : JVal) :
    removeBlockItemIds (removeBlockItemIds v) = removeBlockItemIds v :=
  removeBlockItemIds_of_idsCleared _ (idsCleared_strip v)

/-!
Lemmas about the immutable strip variant.
-/

theorem removeBlockItemIdsImmutableObj_lookup_id (o : JObj) :
    (removeBlockItemIdsImmutableObj o).lookup "id" = none := by
  induction o with
  | nil => rfl
  | cons k v rest ih =>
    by_cases hk : k = "id"
    · simp [removeBlockItemIdsImmutableObj, hk, ih]
    · simp [removeBlockItemIdsImmutableObj, hk, JObj.lookup, ih]

theorem removeBlockItemIdsImmutableObj_lookup_ne (o : JObj) (k : String) (h : k ≠ "id") :
    (removeBlockItemIdsImmutableObj o).lookup k
      = (o.lookup k).map removeBlockItemIdsImmutable := by
  induction o with
  | nil => rfl
  | cons k0 v0 rest ih =>
    by_cases hk0 : k0 = "id"
    · subst hk0
      simp [removeBlockItemIdsImmutableObj, JObj.lookup, Ne.symm h, ih]
    · by_cases hk : k0 = k
      · simp [removeBlockItemIdsImmutableObj, hk0, JObj.lookup, hk, h]
      · simp [removeBlockItemIdsImmutableObj, hk0, JObj.lookup, hk, ih]

/-- Every node the immutable variant produces satisfies the clearing
property at its root: its own `id` keys are gone entirely. -/
theorem clearedAt_immutableObj (o : JObj) :
    clearedAt (removeBlockItemIdsImmutableObj o) = true := by
  unfold clearedAt
  simp only [Bool.and_eq_true]
  constructor
  · by_cases ht : (removeBlockItemIdsImmutableObj o).lookup "type" = some (.str "item")
    · simp [ht, removeBlockItemIdsImmutableObj_lookup_id, idOk]
    · simp [ht]
  · by_cases ht : (removeBlockItemIdsImmutableObj o).lookup "type" = some (.str "block")
    · rw [if_pos ht, removeBlockItemIdsImmutableObj_lookup_ne o "item" (by decide)]
      cases hlk : o.lookup "item" with
      | none => simp
      | some w =>
        cases w with
        | obj io =>
          show idOk ((removeBlockItemIdsImmutableObj io).lookup "id") = true
          rw [removeBlockItemIdsImmutableObj_lookup_id]
          rfl
        | str s => rfl
        | num n => rfl
        | bool b => rfl
        | null => rfl
        | undef => rfl
        | arr a => rfl
    · simp [ht]

mutual
/-- Every node of an immutably stripped value satisfies the clearing
property. -/
theorem idsCleared_immutable : ∀ v, idsCleared (removeBlockItemIdsImmutable v) = true
  | .str _ => rfl
  | .num _ => rfl
  | .bool _ => rfl
  | .null => rfl
  | JVal.undef => rfl
  | .arr a => by
    show idsClearedArr (removeBlockItemIdsImmutableArr a) = true
    exact idsClearedArr_immutable a
  | .obj o => by
    show (clearedAt (removeBlockItemIdsImmutableObj o)
      && idsClearedObj (removeBlockItemIdsImmutableObj o)) = true
    rw [clearedAt_immutableObj o, idsClearedObj_immutable o]
    rfl

/-- Elementwise clearing for immutably stripped arrays. -/
theorem idsClearedArr_immutable :
    ∀ a, idsClearedArr (removeBlockItemIdsImmutableArr a) = true
  | .nil => rfl
  | .cons v rest => by
    show (idsCleared (removeBlockItemIdsImmutable v)
      && idsClearedArr (removeBlockItemIdsImmutableArr rest)) = true
    rw [idsCleared_immutable v, idsClearedArr_immutable rest]
    rfl

/-- Elementwise clearing for immutably stripped objects. -/
theorem idsClearedObj_immutable :
    ∀ o, idsClearedObj (removeBlockItemIdsImmutableObj o) = true
  | .nil => rfl
  | .cons k v rest => by
    by_cases hk : k = "id"
    · show idsClearedObj (removeBlockItemIdsImmutableObj (.cons k v rest)) = true
      rw [show removeBlockItemIdsImmutableObj (.cons k v rest)
          = removeBlockItemIdsImmutableObj rest by
        simp [removeBlockItemIdsImmutableObj, hk]]
      exact idsClearedObj_immutable rest
    · show idsClearedObj (removeBlockItemIdsImmutableObj (.cons k v rest)) = true
      rw [show removeBlockItemIdsImmutableObj (.cons k v rest)
          = .cons k (removeBlockItemIdsImmutable v) (removeBlockItemIdsImmutableObj rest) by
        simp [removeBlockItemIdsImmutableObj, hk]]
      show (idsCleared (removeBlockItemIdsImmutable v)
        && idsClearedObj (removeBlockItemIdsImmutableObj rest)) = true
      rw [idsCleared_immutable v, idsClearedObj_immutable rest]
      rfl
end

mutual
/-- Idempotence of the immutable variant. -/
theorem removeBlockItemIdsImmutable_idem :
    ∀ v, removeBlockItemIdsImmutable (removeBlockItemIdsImmutable v)
      = removeBlockItemIdsImmutable v
  | .str _ => rfl
  | .num _ => rfl
  | .bool _ => rfl
  | .null => rfl
  | JVal.undef => rfl
  | .arr a => by
    show JVal.arr (removeBlockItemIdsImmutableArr (removeBlockItemIdsImmutableArr a))
      = .arr (removeBlockItemIdsImmutableArr a)
    rw [removeBlockItemIdsImmutableArr_idem a]
  | .obj o => by
    show JVal.obj (removeBlockItemIdsImmutableObj (removeBlockItemIdsImmutableObj o))
      = .obj (removeBlockItemIdsImmutableObj o)
    rw [removeBlockItemIdsImmutableObj_idem o]

/-- Elementwise idempotence on arrays. -/
theorem removeBlockItemIdsImmutableArr_idem :
    ∀ a, removeBlockItemIdsImmutableArr (removeBlockItemIdsImmutableArr a)
      = removeBlockItemIdsImmutableArr a
  | .nil => rfl
  | .cons v rest => by
    show JArr.cons (removeBlockItemIdsImmutable (removeBlockItemIdsImmutable v))
        (removeBlockItemIdsImmutableArr (removeBlockItemIdsImmutableArr rest))
      = .cons (removeBlockItemIdsImmutable v) (removeBlockItemIdsImmutableArr rest)
    rw [removeBlockItemIdsImmutable_idem v, removeBlockItemIdsImmutableArr_idem rest]

/-- Elementwise idempotence on objects. -/
theorem removeBlockItemIdsImmutableObj_idem :
    ∀ o, removeBlockItemIdsImmutableObj (removeBlockItemIdsImmutableObj o)
      = removeBlockItemIdsImmutableObj o
  | .nil => rfl
  | .cons k v rest => by
    by_cases hk : k = "id"
    · rw [show removeBlockItemIdsImmutableObj (JObj.cons k v rest)
          = removeBlockItemIdsImmutableObj rest by
        simp [removeBlockItemIdsImmutableObj, hk]]
      exact removeBlockItemIdsImmutableObj_idem rest
    · rw [show removeBlockItemIdsImmutableObj (JObj.cons k v rest)
          = .cons k (removeBlockItemIdsImmutable v) (removeBlockItemIdsImmutableObj rest) by
        simp [removeBlockItemIdsImmutableObj, hk]]
      rw [show removeBlockItemIdsImmutableObj
            (JObj.cons k (removeBlockItemIdsImmutable v) (removeBlockItemIdsImmutableObj rest))
          = .cons k (removeBlockItemIdsImmutable (removeBlockItemIdsImmutable v))
              (removeBlockItemIdsImmutableObj (removeBlockItemIdsImmutableObj rest)) by
        simp [removeBlockItemIdsImmutableObj, hk]]
      rw [removeBlockItemIdsImmutable_idem v, removeBlockItemIdsImmutableObj_idem rest]
end

/-- C4: the ID-stripping transform is idempotent: for every JSON value `v`,
`strip (strip v)` is structurally equal to `strip v`, for the engine's
`removeBlockItemIds`, the mutating variant and the non-mutating variant
alike; re-stripping an already-stripped structure changes nothing. -/
theorem strip_idempotent (v : JVal) :
    removeBlockItemIds (removeBlockItemIds v) = removeBlockItemIds v ∧
    removeBlockItemIdsMutable (removeBlockItemIdsMutable v) = removeBlockItemIdsMutable v ∧
    removeBlockItemIdsImmutable (removeBlockItemIdsImmutable v) = removeBlockItemIdsImmutable v :=
  ⟨removeBlockItemIds_idem v, removeBlockItemIds_idem v,
    removeBlockItemIdsImmutable_idem v⟩

/-- C2 counterexample: on the object `{type:"item", id:"x", c:{id:"y"}}` the
two strip variants do not return structurally equal results, and the
mutating variant leaves the nested `id:"y"` below the matched item node
fully readable — refuting both halves of the claimed equivalence. -/
theorem strip_variants_not_equivalent :
    removeBlockItemIdsMutable
        (.obj (.cons "type" (.str "item") (.cons "id" (.str "x")
          (.cons "c" (.obj (.cons "id" (.str "y") .nil)) .nil))))
      ≠ removeBlockItemIdsImmutable
        (.obj (.cons "type" (.str "item") (.cons "id" (.str "x")
          (.cons "c" (.obj (.cons "id" (.str "y") .nil)) .nil)))) ∧
    removeBlockItemIdsMutable
        (.obj (.cons "type" (.str "item") (.cons "id" (.str "x")
          (.cons "c" (.obj (.cons "id" (.str "y") .nil)) .nil))))
      = .obj (.cons "type" (.str "item") (.cons "id" JVal.undef
          (.cons "c" (.obj (.cons "id" (.str "y") .nil)) .nil))) := by
  constructor
  · decide
  · decide

/-- C2 amended: the two variants agree on the clearing contract only at
matched nodes — after either transform, every `type:"item"` node's own `id`
and every `type:"block"` node's `item` object's own `id` reads back as
`undefined` or absent; they are not structurally equal in general, and the
mutating variant can leave `id` keys readable deeper under a matched node. -/
theorem strip_variants_clear_matched_ids (v : JVal) :
    idsCleared (removeBlockItemIdsMutable v) = true ∧
    idsCleared (removeBlockItemIdsImmutable v) = true :=
  ⟨idsCleared_strip v, idsCleared_immutable v⟩

/-!
Lemmas about the aggregator's `modelStats` association list, and the
aggregator claims.
-/

theorem lookupStat_append_of_some (l l' : List (String × ModelStat)) (k : String)
    (ms : ModelStat) (h : lookupStat l k = some ms) :
    lookupStat (l ++ l') k = some ms := by
  induction l with
  | nil => simp [lookupStat] at h
  | cons p rest ih =>
    by_cases hk : p.1 = k
    · simp [lookupStat, hk] at h ⊢
      exact h
    · simp [lookupStat, hk] at h ⊢
      exact ih h

theorem lookupStat_append_right (l : List (String × ModelStat)) (k : String)
    (ms : ModelStat) (h : lookupStat l k = none) :
    lookupStat (l ++ [(k, ms)]) k = some ms := by
  induction l with
  | nil => simp [lookupStat]
  | cons p rest ih =>
    by_cases hk : p.1 = k
    · simp [lookupStat, hk] at h
    · simp [lookupStat, hk] at h ⊢
      exact ih h

theorem lookupStat_setStat_self (l : List (String × ModelStat)) (k : String)
    (ms0 ms : ModelStat) (h : lookupStat l k = some ms0) :
    lookupStat (setStat l k ms) k = some ms := by
  induction l with
  | nil => simp [lookupStat] at h
  | cons p rest ih =>
    by_cases hk : p.1 = k
    · cases p with
      | mk k0 v0 =>
        simp at hk
        simp [setStat, lookupStat, hk]
    · cases p with
      | mk k0 v0 =>
        simp at hk
        simp [setStat, lookupStat, hk] at h ⊢
        exact ih h

/-- After folding an update carrying truthy model info and a truthy record
id, that record id is recorded as processed for that model. -/
theorem updateStatistics_mem (s : DuplicationStats) (u : ProgressUpdate)
    (hm : optTruthy u.modelId = true) (hn : optTruthy u.modelName = true)
    (hr : optTruthy u.recordId = true) :
    ∃ ms, lookupStat (updateStatistics s u).modelStats (u.modelId.getD "") = some ms ∧
      (u.recordId.getD "") ∈ ms.processedRecordIds := by
  unfold updateStatistics
  rw [hm, hn, hr]
  simp only [Bool.and_self, if_true]
  cases hls : lookupStat s.modelStats (u.modelId.getD "") with
  | some ms0 =>
    by_cases hrid : (u.recordId.getD "") ∈ ms0.processedRecordIds
    · simp only [hrid, if_true, hls]
      exact ⟨ms0, rfl, hrid⟩
    · simp only [hrid, if_false, hls]
      cases u.type with
      | success =>
        exact ⟨_, lookupStat_setStat_self _ _ ms0 _ hls, List.mem_cons_self _ _⟩
      | error =>
        exact ⟨_, lookupStat_setStat_self _ _ ms0 _ hls, List.mem_cons_self _ _⟩
      | info =>
        exact ⟨_, lookupStat_setStat_self _ _ ms0 _ hls, List.mem_cons_self _ _⟩
  | none =>
    have hnew := lookupStat_append_right s.modelStats (u.modelId.getD "")
      ⟨0, 0, 0, u.modelName.getD "", []⟩ hls
    simp only [hls, hnew, List.not_mem_nil, if_false]
    cases u.type with
    | success =>
      exact ⟨_, lookupStat_setStat_self _ _ _ _ hnew, List.mem_cons_self _ _⟩
    | error =>
      exact ⟨_, lookupStat_setStat_self _ _ _ _ hnew, List.mem_cons_self _ _⟩
    | info =>
      exact ⟨_, lookupStat_setStat_self _ _ _ _ hnew, List.mem_cons_self _ _⟩

/-- C5: aggregator idempotence — folding the same success/error update
(truthy recordId, modelId, modelName) twice yields the same statistics as
folding it once: the second application finds the record id in the model's
processed set and changes nothing. -/
theorem updateStatistics_idempotent (s : DuplicationStats) (u : ProgressUpdate)
    (hm : optTruthy u.modelId = true) (hn : optTruthy u.modelName = true)
    (hr : optTruthy u.recordId = true)
    (_ht : u.type = .success ∨ u.type = .error) :
    updateStatistics (updateStatistics s u) u = updateStatistics s u := by
  obtain ⟨ms, hlk, hmem⟩ := updateStatistics_mem s u hm hn hr
  set s1 := updateStatistics s u with hs1
  show updateStatistics s1 u = s1
  unfold updateStatistics
  rw [hm, hn, hr]
  simp only [Bool.and_self, if_true]
  simp only [hlk, hmem, if_true]

/-- C5 witness: a concrete success update applied twice. -/
theorem updateStatistics_idempotent_witness :
    updateStatistics
        (updateStatistics
          (updateStatistics ⟨0, 0, 0, 0, [], 0, 0⟩
            ⟨"", .success, 0, none, some "m1", some "Article", some "r1"⟩)
          ⟨"", .success, 0, none, some "m1", some "Article", some "r1"⟩)
        ⟨"", .success, 0, none, some "m1", some "Article", some "r1"⟩
      = updateStatistics
          (updateStatistics ⟨0, 0, 0, 0, [], 0, 0⟩
            ⟨"", .success, 0, none, some "m1", some "Article", some "r1"⟩)
          ⟨"", .success, 0, none, some "m1", some "Article", some "r1"⟩ :=
  updateStatistics_idempotent
    (updateStatistics ⟨0, 0, 0, 0, [], 0, 0⟩
      ⟨"", .success, 0, none, some "m1", some "Article", some "r1"⟩)
    ⟨"", .success, 0, none, some "m1", some "Article", some "r1"⟩
    (by decide) (by decide) (by decide) (Or.inl rfl)

/-- C3 counterexample: an informational update with model info but no
record id (the engine's `Processing model` event) changes the
`totalModels` counter from 0 to 1, so counters are not all left
unchanged. -/
theorem updateStatistics_info_changes_totalModels :
    (updateStatistics ⟨0, 0, 0, 0, [], 0, 0⟩
        ⟨"Processing model: Article", .info, 0, some 5, some "m1", some "Article", none⟩).totalModels
      ≠ (⟨0, 0, 0, 0, [], 0, 0⟩ : DuplicationStats).totalModels := by
  decide

/-- C3 amended: an update without a record id never changes
`totalRecords`, `successfulRecords`, `failedRecords`, or any existing
model's entry (hence its success/error/total counts); it may only register
a new zeroed model entry, adjusting `totalModels`. -/
theorem updateStatistics_no_recordId_frame (s : DuplicationStats) (u : ProgressUpdate)
    (h : u.recordId = none) :
    (updateStatistics s u).totalRecords = s.totalRecords ∧
    (updateStatistics s u).successfulRecords = s.successfulRecords ∧
    (updateStatistics s u).failedRecords = s.failedRecords ∧
    ∀ mid ms, lookupStat s.modelStats mid = some ms →
      lookupStat (updateStatistics s u).modelStats mid = some ms := by
  have hr : optTruthy u.recordId = false := by rw [h]; rfl
  unfold updateStatistics
  rw [hr]
  simp only [Bool.false_eq_true, if_false]
  by_cases hmn : (optTruthy u.modelId && optTruthy u.modelName) = true
  · rw [hmn]
    simp only [if_true]
    cases hls : lookupStat s.modelStats (u.modelId.getD "") with
    | some ms0 =>
      simp only [hls]
      exact ⟨trivial, trivial, trivial, fun mid ms hm2 => hm2⟩
    | none =>
      simp only [hls]
      refine ⟨trivial, trivial, trivial, fun mid ms hm2 => ?_⟩
      exact lookupStat_append_of_some _ _ _ _ hm2
  · simp only [Bool.not_eq_true] at hmn
    rw [hmn]
    simp only [Bool.false_eq_true, if_false]
    exact ⟨trivial, trivial, trivial, fun mid ms hm2 => hm2⟩

/-- C3 amended witness: the counterexample update leaves the record
counters and an existing model entry untouched. -/
theorem updateStatistics_no_recordId_frame_witness :
    (updateStatistics
        ⟨1, 1, 1, 0, [("m0", ⟨1, 0, 1, "Post", ["r0"]⟩)], 0, 0⟩
        ⟨"Processing model: Article", .info, 0, some 5, some "m1", some "Article", none⟩).totalRecords
      = (⟨1, 1, 1, 0, [("m0", ⟨1, 0, 1, "Post", ["r0"]⟩)], 0, 0⟩ : DuplicationStats).totalRecords ∧
    (updateStatistics
        ⟨1, 1, 1, 0, [("m0", ⟨1, 0, 1, "Post", ["r0"]⟩)], 0, 0⟩
        ⟨"Processing model: Article", .info, 0, some 5, some "m1", some "Article", none⟩).successfulRecords
      = (⟨1, 1, 1, 0, [("m0", ⟨1, 0, 1, "Post", ["r0"]⟩)], 0, 0⟩ : DuplicationStats).successfulRecords ∧
    lookupStat
        (updateStatistics
          ⟨1, 1, 1, 0, [("m0", ⟨1, 0, 1, "Post", ["r0"]⟩)], 0, 0⟩
          ⟨"Processing model: Article", .info, 0, some 5, some "m1", some "Article", none⟩).modelStats
        "m0"
      = some ⟨1, 0, 1, "Post", ["r0"]⟩ := by
  have h := updateStatistics_no_recordId_frame
    ⟨1, 1, 1, 0, [("m0", ⟨1, 0, 1, "Post", ["r0"]⟩)], 0, 0⟩
    ⟨"Processing model: Article", .info, 0, some 5, some "m1", some "Article", none⟩
    rfl
  exact ⟨h.1, h.2.1, h.2.2.2 "m0" ⟨1, 0, 1, "Post", ["r0"]⟩ (by decide)⟩

/-!
Engine claims: selection filter, per-record error containment, abort
termination.
-/

/-- C10: calling the engine with an empty `selectedModelIds` array skips the
selection filter entirely (`selectedModelIds.length > 0` fails), so the run
is identical to omitting `selectedModelIds`: every non-modular-block model
is processed. -/
theorem empty_selection_processes_all (env : Env) (src tgt : String) :
    duplicateLocaleContent env src tgt (some [])
      = duplicateLocaleContent env src tgt none := rfl

/-- C7: per-record error containment.  With the abort flag never set, the
record loop of a model is exactly the concatenation of every record's own
events — a failing record neither escapes the loop nor stops the records
after it — and a record whose non-empty update is rejected contributes
exactly its update call followed by an error event carrying its record id
and the model's id and name. -/
theorem record_error_containment (env : Env) (m : ItemType) (src tgt : String) (mp : Nat)
    (hno : ∀ k, env.abortReads k = false) :
    (∀ recs n, recordLoop env m src tgt mp recs n
        = ((recs.map (recordEvents env m src tgt)).flatten, n + recs.length, false)) ∧
    (∀ r : RecordItem, (buildUpdates src tgt r.attributes).keys.length > 0 →
      env.updateOk r.id = false →
      recordEvents env m src tgt r
        = [EngineEv.apiUpdate r.id (buildUpdates src tgt r.attributes),
           EngineEv.emit ⟨updateFailedMessage, .error, 0, none,
             some m.id, some m.name, some r.id⟩]) := by
  constructor
  · intro recs
    induction recs with
    | nil =>
      intro n
      simp [recordLoop]
    | cons r rest ih =>
      intro n
      rw [recordLoop, hno n]
      simp only [Bool.false_eq_true, if_false, ih (n + 1), List.map_cons, List.flatten_cons]
      simp only [Prod.mk.injEq, List.length_cons]
      exact ⟨trivial, by omega, trivial⟩
  · intro r hne hfail
    unfold recordEvents
    simp only [hne, if_true, hfail, Bool.false_eq_true, if_false]

/-- C7 witness: a two-record model where the first record's update is
rejected; the loop still contains both records' events in order. -/
theorem record_error_containment_witness :
    recordLoop
        ⟨[⟨"m1", "Article", "article", false⟩],
          fun _ => [⟨"r1", .cons "title" (.obj (.cons "en" (.str "Hello") .nil)) .nil⟩,
                    ⟨"r2", .cons "title" (.obj (.cons "en" (.str "Hi") .nil)) .nil⟩],
          fun rid => rid ≠ "r1", fun _ => false⟩
        ⟨"m1", "Article", "article", false⟩ "en" "fr" 5
        [⟨"r1", .cons "title" (.obj (.cons "en" (.str "Hello") .nil)) .nil⟩,
         ⟨"r2", .cons "title" (.obj (.cons "en" (.str "Hi") .nil)) .nil⟩] 0
      = (([⟨"r1", .cons "title" (.obj (.cons "en" (.str "Hello") .nil)) .nil⟩,
           ⟨"r2", .cons "title" (.obj (.cons "en" (.str "Hi") .nil)) .nil⟩].map
            (recordEvents
              ⟨[⟨"m1", "Article", "article", false⟩],
                fun _ => [⟨"r1", .cons "title" (.obj (.cons "en" (.str "Hello") .nil)) .nil⟩,
                          ⟨"r2", .cons "title" (.obj (.cons "en" (.str "Hi") .nil)) .nil⟩],
                fun rid => rid ≠ "r1", fun _ => false⟩
              ⟨"m1", "Article", "article", false⟩ "en" "fr")).flatten, 2, false) ∧
    recordEvents
        ⟨[⟨"m1", "Article", "article", false⟩],
          fun _ => [⟨"r1", .cons "title" (.obj (.cons "en" (.str "Hello") .nil)) .nil⟩,
                    ⟨"r2", .cons "title" (.obj (.cons "en" (.str "Hi") .nil)) .nil⟩],
          fun rid => rid ≠ "r1", fun _ => false⟩
        ⟨"m1", "Article", "article", false⟩ "en" "fr"
        ⟨"r1", .cons "title" (.obj (.cons "en" (.str "Hello") .nil)) .nil⟩
      = [EngineEv.apiUpdate "r1"
           (buildUpdates "en" "fr" (.cons "title" (.obj (.cons "en" (.str "Hello") .nil)) .nil)),
         EngineEv.emit ⟨updateFailedMessage, .error, 0, none,
           some "m1", some "Article", some "r1"⟩] := by
  have h := record_error_containment
    ⟨[⟨"m1", "Article", "article", false⟩],
      fun _ => [⟨"r1", .cons "title" (.obj (.cons "en" (.str "Hello") .nil)) .nil⟩,
                ⟨"r2", .cons "title" (.obj (.cons "en" (.str "Hi") .nil)) .nil⟩],
      fun rid => rid ≠ "r1", fun _ => false⟩
    ⟨"m1", "Article", "article", false⟩ "en" "fr" 5 (fun _ => rfl)
  refine ⟨?_, ?_⟩
  · exact h.1 _ 0
  · exact h.2 ⟨"r1", .cons "title" (.obj (.cons "en" (.str "Hello") .nil)) .nil⟩
      (by decide) (by decide)

theorem noAbortEmit_nil : noAbortEmit [] := by
  intro u hu
  simp at hu

theorem noAbortEmit_append (l1 l2 : List EngineEv)
    (h1 : noAbortEmit l1) (h2 : noAbortEmit l2) : noAbortEmit (l1 ++ l2) := by
  intro u hu
  rcases List.mem_append.mp hu with h | h
  · exact h1 u h
  · exact h2 u h

theorem recordEvents_clean (env : Env) (m : ItemType) (src tgt : String) (r : RecordItem) :
    noAbortEmit (recordEvents env m src tgt r) := by
  intro u hu
  unfold recordEvents at hu
  by_cases hne : (buildUpdates src tgt r.attributes).keys.length > 0
  · simp only [hne, if_true] at hu
    by_cases hok : env.updateOk r.id = true
    · simp [hok] at hu
      subst hu
      exact (by decide : ("" : String) ≠ abortMessage)
    · simp only [Bool.not_eq_true] at hok
      simp [hok] at hu
      subst hu
      exact (by decide : updateFailedMessage ≠ abortMessage)
  · simp only [hne, if_false] at hu
    simp at hu

theorem processing_ne_abort (name : String) :
    "Processing model: " ++ name ≠ abortMessage := by
  intro h
  have hd : "Processing model: ".data ++ name.data = abortMessage.data := by
    rw [← String.data_append, h]
  have h18 := congrArg (fun l => List.take 18 l) hd
  simp only at h18
  rw [List.take_append_of_le_length (by decide)] at h18
  exact absurd h18 (by decide)

/-- Shape of the record loop's trace: on abort it ends with the abort
event after a clean prefix; otherwise it is clean throughout. -/
theorem recordLoop_shape (env : Env) (m : ItemType) (src tgt : String) (mp : Nat) :
    ∀ (recs : List RecordItem) (n : Nat),
      ((recordLoop env m src tgt mp recs n).2.2 = true →
        ∃ pre u2, (recordLoop env m src tgt mp recs n).1 = pre ++ [EngineEv.emit u2] ∧
          noAbortEmit pre ∧ u2.message = abortMessage ∧ u2.type = .error) ∧
      ((recordLoop env m src tgt mp recs n).2.2 = false →
        noAbortEmit (recordLoop env m src tgt mp recs n).1) := by
  intro recs
  induction recs with
  | nil =>
    intro n
    exact ⟨fun h => by simp [recordLoop] at h, fun _ => noAbortEmit_nil⟩
  | cons r rest ih =>
    intro n
    by_cases hab : env.abortReads n = true
    · rw [recordLoop, hab]
      simp only [if_true]
      refine ⟨fun _ => ⟨[], ⟨abortMessage, .error, 0, some mp, none, none, none⟩,
        rfl, noAbortEmit_nil, rfl, rfl⟩, fun h => by simp at h⟩
    · simp only [Bool.not_eq_true] at hab
      rw [recordLoop, hab]
      simp only [Bool.false_eq_true, if_false]
      obtain ⟨ihT, ihF⟩ := ih (n + 1)
      cases hres : (recordLoop env m src tgt mp rest (n + 1)).2.2 with
      | true =>
        obtain ⟨pre, u2, heq, hpre, hmsg, htyp⟩ := ihT hres
        refine ⟨fun _ => ⟨recordEvents env m src tgt r ++ pre, u2, ?_, ?_, hmsg, htyp⟩,
          fun h => ?_⟩
        · simp [heq, List.append_assoc]
        · exact noAbortEmit_append _ _ (recordEvents_clean env m src tgt r) hpre
        · simp at h
      | false =>
        refine ⟨fun h => ?_, fun _ => ?_⟩
        · simp at h
        · exact noAbortEmit_append _ _ (recordEvents_clean env m src tgt r) (ihF hres)

/-- Shape of the model loop's trace. -/
theorem modelLoop_shape (env : Env) (src tgt : String) (len : Nat) :
    ∀ (models : List ItemType) (i n : Nat),
      ((modelLoop env src tgt len models i n).2.2 = true →
        ∃ pre u2, (modelLoop env src tgt len models i n).1 = pre ++ [EngineEv.emit u2] ∧
          noAbortEmit pre ∧ u2.message = abortMessage ∧ u2.type = .error) ∧
      ((modelLoop env src tgt len models i n).2.2 = false →
        noAbortEmit (modelLoop env src tgt len models i n).1) := by
  intro models
  induction models with
  | nil =>
    intro i n
    exact ⟨fun h => by simp [modelLoop] at h, fun _ => noAbortEmit_nil⟩
  | cons m rest ih =>
    intro i n
    by_cases hab : env.abortReads n = true
    · rw [modelLoop, hab]
      simp only [if_true]
      refine ⟨fun _ => ⟨[], ⟨abortMessage, .error, 0, some 5, none, none, none⟩,
        rfl, noAbortEmit_nil, rfl, rfl⟩, fun h => by simp at h⟩
    · simp only [Bool.not_eq_true] at hab
      rw [modelLoop, hab]
      simp only [Bool.false_eq_true, if_false]
      have hhead : noAbortEmit [EngineEv.emit ⟨"Processing model: " ++ m.name, .info, 0,
          some (modelProgress i len), some m.id, some m.name, none⟩] := by
        intro u hu
        simp only [List.mem_singleton, EngineEv.emit.injEq] at hu
        subst hu
        exact processing_ne_abort m.name
      obtain ⟨rlT, rlF⟩ := recordLoop_shape env m src tgt (modelProgress i len)
        (env.recordsFor m.api_key) (n + 1)
      cases hres : (recordLoop env m src tgt (modelProgress i len)
          (env.recordsFor m.api_key) (n + 1)).2.2 with
      | true =>
        obtain ⟨pre, u2, heq, hpre, hmsg, htyp⟩ := rlT hres
        simp only [hres, if_true]
        refine ⟨fun _ => ⟨EngineEv.emit ⟨"Processing model: " ++ m.name, .info, 0,
            some (modelProgress i len), some m.id, some m.name, none⟩ :: pre, u2, ?_, ?_, hmsg, htyp⟩,
          fun h => by cases h⟩
        · simp [heq]
        · intro u hu
          simp only [List.mem_cons, EngineEv.emit.injEq] at hu
          rcases hu with hu | hu
          · subst hu
            exact processing_ne_abort m.name
          · exact hpre u (by simpa using hu)
      | false =>
        simp only [hres, Bool.false_eq_true, if_false]
        obtain ⟨mlT, mlF⟩ := ih (i + 1)
          (recordLoop env m src tgt (modelProgress i len) (env.recordsFor m.api_key) (n + 1)).2.1
        cases hres2 : (modelLoop env src tgt len rest (i + 1)
            (recordLoop env m src tgt (modelProgress i len)
              (env.recordsFor m.api_key) (n + 1)).2.1).2.2 with
        | true =>
          obtain ⟨pre, u2, heq, hpre, hmsg, htyp⟩ := mlT hres2
          refine ⟨fun _ => ⟨EngineEv.emit ⟨"Processing model: " ++ m.name, .info, 0,
              some (modelProgress i len), some m.id, some m.name, none⟩ ::
              ((recordLoop env m src tgt (modelProgress i len)
                (env.recordsFor m.api_key) (n + 1)).1 ++ pre), u2, ?_, ?_, hmsg, htyp⟩,
            fun h => ?_⟩
          · simp [heq, List.append_assoc]
          · intro u hu
            simp only [List.mem_cons, EngineEv.emit.injEq] at hu
            rcases hu with hu | hu
            · subst hu
              exact processing_ne_abort m.name
            · exact noAbortEmit_append _ _ (rlF hres) hpre u (by simpa using hu)
          · exact absurd h (by decide)
        | false =>
          refine ⟨fun h => ?_, fun _ => ?_⟩
          · exact absurd h (by decide)
          · show noAbortEmit
              (EngineEv.emit ⟨"Processing model: " ++ m.name, .info, 0,
                some (modelProgress i len), some m.id, some m.name, none⟩ ::
                ((recordLoop env m src tgt (modelProgress i len)
                  (env.recordsFor m.api_key) (n + 1)).1
                  ++ (modelLoop env src tgt len rest (i + 1)
                      (recordLoop env m src tgt (modelProgress i len)
                        (env.recordsFor m.api_key) (n + 1)).2.1).1))
            intro u hu
            simp only [List.mem_cons, EngineEv.emit.injEq] at hu
            rcases hu with hu | hu
            · subst hu
              exact processing_ne_abort m.name
            · exact noAbortEmit_append _ _ (rlF hres) (mlF hres2) u (by simpa using hu)

/-- Helper for the found-models message. -/
theorem found_ne_abort (s : String) : "Found " ++ s ≠ abortMessage := by
  intro h
  have hd : "Found ".data ++ s.data = abortMessage.data := by
    rw [← String.data_append, h]
  have h6 := congrArg (fun l => List.take 6 l) hd
  simp only at h6
  rw [List.take_append_of_le_length (by decide)] at h6
  exact absurd h6 (by decide)

/-- Shape of the run's trace for a given model list: clean, or a clean
prefix followed by one terminal abort event. -/
theorem duplicate_run_shape_aux (env : Env) (src tgt : String) (models : List ItemType) :
    noAbortEmit
      (if (modelLoop env src tgt models.length models 0 0).2.2 then
        EngineEv.emit ⟨"Found " ++ toString models.length ++ " content models to process",
          .info, 0, some 5, none, none, none⟩ ::
          (modelLoop env src tgt models.length models 0 0).1
      else
        EngineEv.emit ⟨"Found " ++ toString models.length ++ " content models to process",
          .info, 0, some 5, none, none, none⟩ ::
          (modelLoop env src tgt models.length models 0 0).1 ++
            [EngineEv.emit ⟨"Verifying content migration...", .info, 0, some 100, none, none, none⟩,
             EngineEv.emit ⟨"Migration completed successfully!", .success, 0, none, none, none, none⟩]) ∨
    ∃ pre u2,
      (if (modelLoop env src tgt models.length models 0 0).2.2 then
        EngineEv.emit ⟨"Found " ++ toString models.length ++ " content models to process",
          .info, 0, some 5, none, none, none⟩ ::
          (modelLoop env src tgt models.length models 0 0).1
      else
        EngineEv.emit ⟨"Found " ++ toString models.length ++ " content models to process",
          .info, 0, some 5, none, none, none⟩ ::
          (modelLoop env src tgt models.length models 0 0).1 ++
            [EngineEv.emit ⟨"Verifying content migration...", .info, 0, some 100, none, none, none⟩,
             EngineEv.emit ⟨"Migration completed successfully!", .success, 0, none, none, none, none⟩])
        = pre ++ [EngineEv.emit u2] ∧
      noAbortEmit pre ∧ u2.message = abortMessage ∧ u2.type = .error := by
  obtain ⟨mlT, mlF⟩ := modelLoop_shape env src tgt models.length models 0 0
  have hfoundmsg : ("Found " ++ toString models.length ++ " content models to process")
      ≠ abortMessage := by
    rw [String.append_assoc]
    exact found_ne_abort _
  cases hres : (modelLoop env src tgt models.length models 0 0).2.2 with
  | true =>
    obtain ⟨pre, u2, heq, hpre, hmsg, htyp⟩ := mlT hres
    right
    refine ⟨EngineEv.emit ⟨"Found " ++ toString models.length
        ++ " content models to process", .info, 0, some 5, none, none, none⟩ :: pre,
      u2, ?_, ?_, hmsg, htyp⟩
    · simp [heq]
    · intro u hu
      simp only [List.mem_cons, EngineEv.emit.injEq] at hu
      rcases hu with hu | hu
      · subst hu
        exact hfoundmsg
      · exact hpre u (by simpa using hu)
  | false =>
    left
    simp only [Bool.false_eq_true, if_false]
    intro u hu
    simp only [List.mem_cons, List.mem_append, List.mem_singleton, EngineEv.emit.injEq] at hu
    rcases hu with (hu | hu) | hu | hu | hu
    · subst hu
      exact hfoundmsg
    · exact mlF hres u hu
    · subst hu
      exact (by decide : ("Verifying content migration..." : String) ≠ abortMessage)
    · subst hu
      exact (by decide : ("Migration completed successfully!" : String) ≠ abortMessage)
    · simp at hu

/-- Shape of the whole run's trace: clean, or a clean prefix followed by
one terminal abort event. -/
theorem duplicate_run_shape (env : Env) (src tgt : String) (sel : Option (List String)) :
    noAbortEmit (duplicateLocaleContent env src tgt sel) ∨
    ∃ pre u2, duplicateLocaleContent env src tgt sel = pre ++ [EngineEv.emit u2] ∧
      noAbortEmit pre ∧ u2.message = abortMessage ∧ u2.type = .error := by
  cases sel with
  | none =>
    exact duplicate_run_shape_aux env src tgt
      (env.allModels.filter (fun m => !m.modular_block))
  | some ids =>
    by_cases h : ids.length > 0
    · unfold duplicateLocaleContent
      simp only [h, if_true]
      exact duplicate_run_shape_aux env src tgt
        ((env.allModels.filter (fun m => !m.modular_block)).filter
          (fun m => ids.contains m.id))
    · unfold duplicateLocaleContent
      simp only [h, if_false]
      exact duplicate_run_shape_aux env src tgt
        (env.allModels.filter (fun m => !m.modular_block))

/-- Two lists ending in a single element: an interior decomposition either
ends at that element or the distinguished entry lies in the front part. -/
theorem snoc_eq_append_cons {α : Type} :
    ∀ (t1 l : List α) (e x : α) (t2 : List α),
      l ++ [e] = t1 ++ x :: t2 → t2 = [] ∨ x ∈ l := by
  intro t1
  induction t1 with
  | nil =>
    intro l e x t2 h
    cases l with
    | nil =>
      simp at h
      left
      exact h.2
    | cons b l' =>
      simp at h
      right
      rw [h.1]
      exact List.mem_cons_self _ _
  | cons a t1' ih =>
    intro l e x t2 h
    cases l with
    | nil =>
      rw [List.nil_append] at h
      injection h with h1 h2
      exact absurd h2.symm (by simp)
    | cons b l' =>
      rw [List.cons_append, List.cons_append] at h
      injection h with h1 h2
      rcases ih l' e x t2 h2 with h | h
      · exact Or.inl h
      · right
        exact List.mem_cons_of_mem b h

/-- C6: abort termination.  In every run trace, an emitted event carrying
the abort message (`Process aborted by user`) is the final action of the
run — nothing follows it, in particular no further `updateRecord` call for
any model or record — and it is error-typed.  The abort cell is read
before each model (`modelLoop`) and before each record (`recordLoop`), and
a set flag produces exactly such a terminal event. -/
theorem abort_event_terminal (env : Env) (src tgt : String) (sel : Option (List String))
    (t1 t2 : List EngineEv) (u : ProgressUpdate)
    (htr : duplicateLocaleContent env src tgt sel = t1 ++ EngineEv.emit u :: t2)
    (hmsg : u.message = abortMessage) :
    t2 = [] ∧ u.type = EvType.error := by
  rcases duplicate_run_shape env src tgt sel with hclean | ⟨pre, u2, heq, hpre, hmsg2, htyp2⟩
  · exfalso
    have hmem : EngineEv.emit u ∈ duplicateLocaleContent env src tgt sel := by
      rw [htr]
      exact List.mem_append_right _ (List.mem_cons_self _ _)
    exact hclean u hmem hmsg
  · rw [htr] at heq
    rcases snoc_eq_append_cons t1 pre (EngineEv.emit u2) (EngineEv.emit u) t2 heq.symm
      with ht2 | hin
    · subst ht2
      refine ⟨rfl, ?_⟩
      have hlen : t1.length = pre.length := by
        have hl := congrArg List.length heq
        simp at hl
        omega
      obtain ⟨-, h2⟩ := List.append_inj heq hlen
      have hu2 : EngineEv.emit u = EngineEv.emit u2 := by
        injection h2 with h3 h4
      injection hu2 with hu3
      rw [hu3]
      exact htyp2
    · exact absurd hmsg (hpre u hin)

/-- C6 witness: one model, abort flag set from the start — the run's trace
is the model-count event followed by the terminal abort event. -/
theorem abort_event_terminal_witness :
    ([] : List EngineEv) = [] ∧
    (⟨abortMessage, EvType.error, 0, some 5, none, none, none⟩ : ProgressUpdate).type
      = EvType.error :=
  abort_event_terminal
    ⟨[⟨"m1", "Article", "article", false⟩], fun _ => [], fun _ => true, fun _ => true⟩
    "en" "fr" none
    [EngineEv.emit ⟨"Found 1 content models to process", .info, 0, some 5, none, none, none⟩]
    [] ⟨abortMessage, .error, 0, some 5, none, none, none⟩ rfl rfl

theorem stripMap_idem (o : JObj) : stripMap (stripMap o) = stripMap o := by
  induction o with
  | nil => rfl
  | cons k v rest ih => simp [stripMap, removeBlockItemIds_idem, ih]

theorem benign_isBlockMatch_false (o : JObj) (h : benignObj o) :
    isBlockMatch o = false := by
  unfold isBlockMatch
  simp [h.1]

theorem benign_isItemMatch_false (o : JObj) (h : benignObj o) :
    isItemMatch o = false := by
  unfold isItemMatch
  simp [h.2]

theorem removeBlockItemIds_benign (o : JObj) (h : benignObj o) :
    removeBlockItemIds (.obj o) = .obj (stripMap o) := by
  rw [removeBlockItemIds_obj_char, clearBlock_of_not_match o (benign_isBlockMatch_false o h)]
  have : clearItem o = o := by
    unfold clearItem
    simp [benign_isItemMatch_false o h]
  rw [this]

theorem benignObj_stripMap (o : JObj) (h : benignObj o) : benignObj (stripMap o) := by
  constructor
  · rw [stripMap_lookup]
    intro hc
    cases hlk : o.lookup "type" with
    | none => rw [hlk] at hc; simp at hc
    | some w =>
      rw [hlk] at hc
      simp only [Option.map_some'] at hc
      have hw := (removeBlockItemIds_eq_str_iff w "block").mp (by injection hc)
      exact h.1 (by rw [hlk, hw])
  · rw [stripMap_lookup]
    intro hc
    cases hlk : o.lookup "type" with
    | none => rw [hlk] at hc; simp at hc
    | some w =>
      rw [hlk] at hc
      simp only [Option.map_some'] at hc
      have hw := (removeBlockItemIds_eq_str_iff w "item").mp (by injection hc)
      exact h.2 (by rw [hlk, hw])

/-- On an accumulated `updates` map without a `type` key — field keys are
never `type`, which is reserved — the whole-map strip is the per-binding
strip. -/
theorem stripUpdates_eq_stripMap (u : JObj) (h : u.lookup "type" = none) :
    stripUpdates u = stripMap u := by
  unfold stripUpdates
  have hb : isBlockMatch u = false := by unfold isBlockMatch; simp [h]
  have hi : isItemMatch u = false := by unfold isItemMatch; simp [h]
  rw [hb, hi, removeBlockItemIdsObj_false_false]

theorem stripUpdates_keys (u : JObj) : (stripUpdates u).keys = u.keys :=
  removeBlockItemIdsObj_keys u _ _

theorem lookup_none_of_keys_eq (o o' : JObj) (k : String)
    (hk : o'.keys = o.keys) (h : o.lookup k = none) : o'.lookup k = none := by
  have h1 : k ∉ o.keys := by
    intro hm
    have h2 := (JObj.hasKey_iff_mem_keys o k).mpr hm
    unfold JObj.hasKey at h2
    rw [h] at h2
    simp at h2
  have h2 : k ∉ o'.keys := by rw [hk]; exact h1
  refine JObj.lookup_eq_none_of_not_hasKey o' k ?_
  cases hb : o'.hasKey k with
  | false => rfl
  | true => exact absurd ((JObj.hasKey_iff_mem_keys o' k).mp hb) h2

theorem ne_type_of_not_skipped (k : String) (h : isSkippedFieldKey k = false) :
    k ≠ "type" := by
  intro hk
  subst hk
  exact absurd h (by decide)

/-- A field-loop step never introduces a `type` key into the update map. -/
theorem processField_type_none (src tgt : String) (updates : JObj) (k : String) (v : JVal)
    (h : updates.lookup "type" = none) :
    (processField src tgt updates k v).lookup "type" = none := by
  unfold processField
  by_cases hs : isSkippedFieldKey k = true
  · simp [hs, h]
  · simp only [Bool.not_eq_true] at hs
    by_cases hi : jsKeysInclude v src = true
    · simp only [hs, Bool.false_eq_true, if_false, hi, if_true]
      have hk := ne_type_of_not_skipped k hs
      have h2 : (updates.assign k (.obj ((jsSpread v).assign tgt (jsGet v src)))).lookup "type"
          = none := by
        rw [JObj.lookup_assign_ne updates k "type" _ (Ne.symm hk)]
        exact h
      rw [stripUpdates_eq_stripMap _ h2, stripMap_lookup, h2]
      rfl
    · simp only [Bool.not_eq_true] at hi
      simp [hs, hi, h]

/-- A field-loop step never adds a key that is not the field being
processed. -/
theorem processField_lookup_none (src tgt : String) (updates : JObj) (k fk : String)
    (v : JVal) (hk : k ≠ fk) (h : updates.lookup fk = none) :
    (processField src tgt updates k v).lookup fk = none := by
  unfold processField
  by_cases hs : isSkippedFieldKey k = true
  · simp [hs, h]
  · simp only [Bool.not_eq_true] at hs
    by_cases hi : jsKeysInclude v src = true
    · simp only [hs, Bool.false_eq_true, if_false, hi, if_true]
      refine lookup_none_of_keys_eq _ _ fk (stripUpdates_keys _) ?_
      rw [JObj.lookup_assign_ne updates k fk _ (Ne.symm hk)]
      exact h
    · simp only [Bool.not_eq_true] at hi
      simp [hs, hi, h]

/-- Folding fields none of which is `fk` never binds `fk`. -/
theorem buildUpdatesGo_lookup_none (src tgt fk : String) :
    ∀ (attrs updates : JObj), fk ∉ attrs.keys → updates.lookup fk = none →
      (buildUpdatesGo src tgt updates attrs).lookup fk = none := by
  intro attrs
  induction attrs with
  | nil => intro updates _ h; exact h
  | cons k0 v0 rest ih =>
    intro updates hmem h
    have hk0 : k0 ≠ fk := by
      intro hk
      exact hmem (by rw [JObj.keys, hk]; exact List.mem_cons_self _ _)
    have hrest : fk ∉ rest.keys := by
      intro hm
      exact hmem (by rw [JObj.keys]; exact List.mem_cons_of_mem _ hm)
    exact ih _ hrest (processField_lookup_none src tgt updates k0 fk v0 hk0 h)

/-- Folding fields none of which is `fk` preserves a stable binding at
`fk` together with the absence of a `type` key. -/
theorem buildUpdatesGo_keep (src tgt fk : String) (w : JVal)
    (hw : removeBlockItemIds w = w) :
    ∀ (attrs updates : JObj),
      updates.lookup "type" = none →
      (∀ k, k ∈ attrs.keys → k ≠ fk) →
      updates.lookup fk = some w →
      (buildUpdatesGo src tgt updates attrs).lookup fk = some w := by
  intro attrs
  induction attrs with
  | nil => intro updates _ _ h; exact h
  | cons k0 v0 rest ih =>
    intro updates htype hkeys h
    have hk0 : k0 ≠ fk := hkeys k0 (by rw [JObj.keys]; exact List.mem_cons_self _ _)
    have hkeys' : ∀ k, k ∈ rest.keys → k ≠ fk := fun k hm =>
      hkeys k (by rw [JObj.keys]; exact List.mem_cons_of_mem _ hm)
    refine ih _ (processField_type_none src tgt updates k0 v0 htype) hkeys' ?_
    unfold processField
    by_cases hs : isSkippedFieldKey k0 = true
    · simp [hs, h]
    · simp only [Bool.not_eq_true] at hs
      by_cases hi : jsKeysInclude v0 src = true
      · simp only [hs, Bool.false_eq_true, if_false, hi, if_true]
        have h2 : (updates.assign k0 (.obj ((jsSpread v0).assign tgt (jsGet v0 src)))).lookup "type"
            = none := by
          rw [JObj.lookup_assign_ne updates k0 "type" _
            (Ne.symm (ne_type_of_not_skipped k0 hs))]
          exact htype
        rw [stripUpdates_eq_stripMap _ h2, stripMap_lookup,
          JObj.lookup_assign_ne updates k0 fk _ (Ne.symm hk0), h]
        simp [hw]
      · simp only [Bool.not_eq_true] at hi
        simp [hs, hi, h]

/-- An ineligible field — skipped by name, or whose value offers no
source-locale key — leaves the update map untouched. -/
theorem processField_ineligible (src tgt : String) (updates : JObj) (k : String) (v : JVal)
    (h : isSkippedFieldKey k = true ∨ jsKeysInclude v src = false) :
    processField src tgt updates k v = updates := by
  unfold processField
  rcases h with h | h
  · simp [h]
  · by_cases hs : isSkippedFieldKey k = true
    · simp [hs]
    · simp only [Bool.not_eq_true] at hs
      simp [hs, h]

/-- Generalized form of the first half of the empty-update skip: folding an
attribute list with no duplicate keys in which `fk` is bound to an
ineligible value never binds `fk`. -/
theorem buildUpdatesGo_ineligible (src tgt fk : String) (v : JVal)
    (hinel : isSkippedFieldKey fk = true ∨ jsKeysInclude v src = false) :
    ∀ (attrs updates : JObj),
      attrs.keys.Nodup →
      attrs.lookup fk = some v →
      updates.lookup fk = none →
      (buildUpdatesGo src tgt updates attrs).lookup fk = none := by
  intro attrs
  induction attrs with
  | nil => intro updates _ hlk _; simp [JObj.lookup] at hlk
  | cons k0 v0 rest ih =>
    intro updates hnd hlk hnone
    rw [JObj.keys] at hnd
    have hnd2 := List.nodup_cons.mp hnd
    by_cases hk : k0 = fk
    · subst hk
      have hv : v0 = v := by
        rw [JObj.lookup] at hlk
        simp at hlk
        exact hlk
      subst hv
      show (buildUpdatesGo src tgt (processField src tgt updates k0 v0) rest).lookup k0 = none
      rw [processField_ineligible src tgt updates k0 v0 hinel]
      exact buildUpdatesGo_lookup_none src tgt k0 rest updates hnd2.1 hnone
    · have hlk2 : rest.lookup fk = some v := by
        rw [JObj.lookup] at hlk
        simp [hk] at hlk
        exact hlk
      exact ih _ hnd2.2 hlk2 (processField_lookup_none src tgt updates k0 fk v0 hk hnone)

/-- C8: empty-update skip.  First, an attribute bound (in an attribute map
without duplicate keys) to a value that is skipped by name or does not
contain the source-locale key contributes nothing to the update map built
by the field loop.  Second, whenever the accumulated update map is empty
after the field loop, no updateRecord call is made for that record and no
success or error event is emitted for it (its event list is empty). -/
theorem empty_update_skip :
    (∀ (src tgt : String) (attrs : JObj) (fk : String) (v : JVal),
      attrs.keys.Nodup →
      attrs.lookup fk = some v →
      (isSkippedFieldKey fk = true ∨ jsKeysInclude v src = false) →
      (buildUpdates src tgt attrs).lookup fk = none) ∧
    (∀ (env : Env) (m : ItemType) (src tgt : String) (r : RecordItem),
      buildUpdates src tgt r.attributes = .nil →
      recordEvents env m src tgt r = []) := by
  constructor
  · intro src tgt attrs fk v hnd hlk hinel
    exact buildUpdatesGo_ineligible src tgt fk v hinel attrs .nil hnd hlk rfl
  · intro env m src tgt r h
    unfold recordEvents
    rw [h]
    simp [JObj.keys]

/-- C8 witness: a record whose single attribute is the plain string
`"x"` (no locale keys) yields no binding for it, an empty update map and
an empty event list. -/
theorem empty_update_skip_witness :
    (buildUpdates "en" "fr" (.cons "title" (.str "x") .nil)).lookup "title" = none ∧
    recordEvents ⟨[], fun _ => [], fun _ => true, fun _ => false⟩
      ⟨"m", "M", "m", false⟩ "en" "fr" ⟨"r", .cons "title" (.str "x") .nil⟩ = [] :=
  ⟨empty_update_skip.1 "en" "fr" (.cons "title" (.str "x") .nil) "title" (.str "x")
      (by decide) (by decide) (Or.inr (by decide)),
   empty_update_skip.2 ⟨[], fun _ => [], fun _ => true, fun _ => false⟩
      ⟨"m", "M", "m", false⟩ "en" "fr" ⟨"r", .cons "title" (.str "x") .nil⟩ (by decide)⟩

/-- The establishing half of the duplication postcondition: once the field
loop reaches the binding of `fk` — an eligible localized object holding the
source locale — the rest of the fold keeps the produced target binding. -/
theorem buildUpdatesGo_establish (src tgt fk : String) (m : JObj) (vsrc : JVal)
    (hskip : isSkippedFieldKey fk = false)
    (hsrc : m.lookup src = some vsrc)
    (hbb : m.lookup "type" ≠ some (.str "block"))
    (hbi : m.lookup "type" ≠ some (.str "item"))
    (htgt : tgt ≠ "type") :
    ∀ (attrs updates : JObj),
      updates.lookup "type" = none →
      attrs.keys.Nodup →
      attrs.lookup fk = some (.obj m) →
      ∃ uo, (buildUpdatesGo src tgt updates attrs).lookup fk = some (.obj uo) ∧
        uo.lookup tgt = some (removeBlockItemIds vsrc) := by
  intro attrs
  induction attrs with
  | nil => intro updates _ _ hlk; simp [JObj.lookup] at hlk
  | cons k0 v0 rest ih =>
    intro updates htype hnd hlk
    rw [JObj.keys] at hnd
    have hnd2 := List.nodup_cons.mp hnd
    by_cases hk : k0 = fk
    · subst hk
      have hv : v0 = .obj m := by
        rw [JObj.lookup] at hlk
        simp at hlk
        exact hlk
      subst hv
      have hinc : jsKeysInclude (.obj m) src = true := by
        simp only [jsKeysInclude, JObj.hasKey, hsrc]
        rfl
      have hstep : processField src tgt updates k0 (.obj m)
          = stripUpdates (updates.assign k0 (.obj (m.assign tgt vsrc))) := by
        unfold processField
        have hg : jsGet (.obj m) src = vsrc := by
          simp only [jsGet, hsrc]
          rfl
        simp [hskip, hinc, jsSpread, hg]
      have hA : (updates.assign k0 (.obj (m.assign tgt vsrc))).lookup "type" = none := by
        rw [JObj.lookup_assign_ne updates k0 "type" _
          (Ne.symm (ne_type_of_not_skipped k0 hskip))]
        exact htype
      have hwt : benignObj (m.assign tgt vsrc) := by
        constructor
        · rw [JObj.lookup_assign_ne m tgt "type" vsrc (Ne.symm htgt)]
          exact hbb
        · rw [JObj.lookup_assign_ne m tgt "type" vsrc (Ne.symm htgt)]
          exact hbi
      have hbind : (processField src tgt updates k0 (.obj m)).lookup k0
          = some (.obj (stripMap (m.assign tgt vsrc))) := by
        rw [hstep, stripUpdates_eq_stripMap _ hA, stripMap_lookup,
          JObj.lookup_assign_self updates k0 _]
        simp [removeBlockItemIds_benign _ hwt]
      have hstable : removeBlockItemIds (.obj (stripMap (m.assign tgt vsrc)))
          = .obj (stripMap (m.assign tgt vsrc)) := by
        rw [removeBlockItemIds_benign _ (benignObj_stripMap _ hwt), stripMap_idem]
      have htype2 : (processField src tgt updates k0 (.obj m)).lookup "type" = none :=
        processField_type_none src tgt updates k0 (.obj m) htype
      have hkeys2 : ∀ k, k ∈ rest.keys → k ≠ k0 := fun k hm hke => hnd2.1 (hke ▸ hm)
      refine ⟨stripMap (m.assign tgt vsrc), ?_, ?_⟩
      · exact buildUpdatesGo_keep src tgt k0 _ hstable rest _ htype2 hkeys2 hbind
      · rw [stripMap_lookup, JObj.lookup_assign_self m tgt vsrc]
        rfl
    · have hlk2 : rest.lookup fk = some (.obj m) := by
        rw [JObj.lookup] at hlk
        simp [hk] at hlk
        exact hlk
      exact ih _ (processField_type_none src tgt updates k0 v0 htype) hnd2.2 hlk2

/-- C1: duplication postcondition.  For every attribute map (without
duplicate keys) and every non-skipped attribute bound to a localized
object `m` containing the source-locale key — where `m` is a genuine
locale map: it carries no block/item `type` tag and the target locale is
not the reserved key `type` — the update map built by the field loop (the
map `recordEvents` sends to `updateRecord`) binds that attribute to an
object whose target-locale key holds exactly `removeBlockItemIds` of the
pre-duplication source-locale value, a value in which every `id` under a
`type:"block"` node's `item` object and under a `type:"item"` node is
cleared (`idsCleared`). -/
theorem duplication_postcondition (src tgt : String) (attrs : JObj) (fk : String)
    (m : JObj) (vsrc : JVal)
    (hnd : attrs.keys.Nodup)
    (hlk : attrs.lookup fk = some (.obj m))
    (hskip : isSkippedFieldKey fk = false)
    (hsrc : m.lookup src = some vsrc)
    (hbb : m.lookup "type" ≠ some (.str "block"))
    (hbi : m.lookup "type" ≠ some (.str "item"))
    (htgt : tgt ≠ "type") :
    ∃ u, (buildUpdates src tgt attrs).lookup fk = some (.obj u) ∧
      u.lookup tgt = some (removeBlockItemIds vsrc) ∧
      idsCleared (removeBlockItemIds vsrc) = true := by
  obtain ⟨uo, h1, h2⟩ := buildUpdatesGo_establish src tgt fk m vsrc hskip hsrc hbb hbi htgt
    attrs .nil rfl hnd hlk
  exact ⟨uo, h1, h2, idsCleared_strip vsrc⟩

/-- C1 witness: a record with one attribute `title` localized as
`{en: {type: "item", id: "x"}}`; duplicating `en` into `fr` binds
`title.fr` to the source value with its `id` cleared. -/
theorem duplication_postcondition_witness :
    ∃ u, (buildUpdates "en" "fr"
        (.cons "title"
          (.obj (.cons "en" (.obj (.cons "type" (.str "item") (.cons "id" (.str "x") .nil)))
            .nil))
          .nil)).lookup "title" = some (.obj u) ∧
      u.lookup "fr" = some (removeBlockItemIds
        (.obj (.cons "type" (.str "item") (.cons "id" (.str "x") .nil)))) ∧
      idsCleared (removeBlockItemIds
        (.obj (.cons "type" (.str "item") (.cons "id" (.str "x") .nil)))) = true :=
  duplication_postcondition "en" "fr"
    (.cons "title"
      (.obj (.cons "en" (.obj (.cons "type" (.str "item") (.cons "id" (.str "x") .nil)))
        .nil))
      .nil)
    "title"
    (.cons "en" (.obj (.cons "type" (.str "item") (.cons "id" (.str "x") .nil))) .nil)
    (.obj (.cons "type" (.str "item") (.cons "id" (.str "x") .nil)))
    (by decide) (by decide) (by decide) (by decide) (by decide) (by decide) (by decide)

theorem isBlockMatch_assign (m : JObj) (tgt : String) (v : JVal)
    (ht : tgt ≠ "type") (hi : tgt ≠ "item") :
    isBlockMatch (m.assign tgt v) = isBlockMatch m := by
  unfold isBlockMatch
  rw [JObj.lookup_assign_ne m tgt "type" v (Ne.symm ht),
    JObj.lookup_assign_ne m tgt "item" v (Ne.symm hi)]

theorem isItemMatch_assign (m : JObj) (tgt : String) (v : JVal)
    (ht : tgt ≠ "type") (hid : tgt ≠ "id") :
    isItemMatch (m.assign tgt v) = isItemMatch m := by
  unfold isItemMatch JObj.hasKey
  rw [JObj.lookup_assign_ne m tgt "type" v (Ne.symm ht),
    JObj.lookup_assign_ne m tgt "id" v (Ne.symm hid)]

/-- Wherever the full strip of a map is a no-op, the strip seen through a
shared clone is a no-op as well: every binding the shared view keeps
unchanged is one the full strip either kept or rewrote to its own value. -/
theorem sharedStripObj_of_fix (tgt : String) :
    ∀ (m : JObj) (blkP idP : Bool),
      removeBlockItemIdsObj blkP idP m = m →
      sharedStripObj tgt blkP idP m = m := by
  intro m
  induction m with
  | nil => intro _ _ _; rfl
  | cons k v rest ih =>
    intro blkP idP h
    rw [removeBlockItemIdsObj] at h
    by_cases h1 : (idP && k = "id") = true
    · rw [if_pos h1] at h
      simp only [JObj.cons.injEq] at h
      rw [sharedStripObj, if_pos h1]
      rw [ih blkP false h.2.2]
    · rw [if_neg h1] at h
      by_cases h2 : (blkP && k = "item") = true
      · rw [if_pos h2] at h
        simp only [JObj.cons.injEq] at h
        rw [sharedStripObj, if_neg h1, if_pos h2, h.2.1, ih false idP h.2.2]
      · rw [if_neg h2] at h
        simp only [JObj.cons.injEq] at h
        rw [sharedStripObj, if_neg h1, if_neg h2, ih blkP idP h.2.2]
        by_cases h3 : k = tgt
        · rw [if_pos h3]
        · rw [if_neg h3, h.2.1]

/-- C9 counterexample: a record with the single attribute
`content = {en: {type: "item", id: "x"}}` does not survive the duplication
pass unchanged — the in-place strip reaches the record's own `en` value
through the shallow clone and clears its `id`. -/
theorem record_attributes_mutated :
    attributesAfterPass "en" "fr"
      (.cons "content" (.obj (.cons "en"
        (.obj (.cons "type" (.str "item") (.cons "id" (.str "x") .nil))) .nil)) .nil)
    ≠ .cons "content" (.obj (.cons "en"
        (.obj (.cons "type" (.str "item") (.cons "id" (.str "x") .nil))) .nil)) .nil := by
  decide

/-- C9 (amended): the duplication pass leaves the fetched record's
attribute map structurally unchanged exactly when every attribute value is
already id-clean; in general the update map is built from shallow clones
whose binding values are shared with the record, so the in-place strip
clears nested block/item ids inside the record's own attributes.  The
target-locale hypotheses keep the locale key out of the reserved
`type`/`item`/`id` positions, as every real locale code is. -/
theorem record_attributes_unchanged_of_clean (src tgt : String) (attrs : JObj)
    (h : idsClearedObj attrs = true)
    (ht : tgt ≠ "type") (hi : tgt ≠ "item") (hid : tgt ≠ "id") :
    attributesAfterPass src tgt attrs = attrs := by
  induction attrs with
  | nil => rfl
  | cons fk v rest ih =>
    rw [idsClearedObj, Bool.and_eq_true] at h
    rw [attributesAfterPass, ih h.2]
    have hv : attributeAfterPass src tgt fk v = v := by
      unfold attributeAfterPass
      by_cases hs : isSkippedFieldKey fk = true
      · rw [if_pos hs]
      · rw [if_neg hs]
        by_cases hin : jsKeysInclude v src = true
        · rw [if_pos hin]
          cases v with
          | obj m =>
            have hfix : removeBlockItemIds (.obj m) = .obj m :=
              removeBlockItemIds_of_idsCleared _ h.1
            rw [removeBlockItemIds] at hfix
            have hfix2 : removeBlockItemIdsObj (isBlockMatch m) (isItemMatch m) m = m := by
              injection hfix
            show JVal.obj (sharedStripObj tgt
                (isBlockMatch (m.assign tgt (jsGet (.obj m) src)))
                (isItemMatch (m.assign tgt (jsGet (.obj m) src))) m)
              = JVal.obj m
            rw [isBlockMatch_assign m tgt (jsGet (.obj m) src) ht hi,
              isItemMatch_assign m tgt (jsGet (.obj m) src) ht hid]
            rw [sharedStripObj_of_fix tgt m _ _ hfix2]
          | arr a =>
            have hfix : removeBlockItemIds (.arr a) = .arr a :=
              removeBlockItemIds_of_idsCleared _ h.1
            rw [removeBlockItemIds] at hfix
            have hfix2 : removeBlockItemIdsArr a = a := by injection hfix
            show JVal.arr (removeBlockItemIdsArr a) = JVal.arr a
            rw [hfix2]
          | str s => rfl
          | num n => rfl
          | bool b => rfl
          | null => rfl
          | undef => rfl
        · rw [if_neg hin]
    rw [hv]

/-- C9 witness: a clean record (`title = {en: "hello"}`) passes through the
duplication unchanged. -/
theorem record_attributes_unchanged_of_clean_witness :
    idsClearedObj (.cons "title" (.obj (.cons "en" (.str "hello") .nil)) .nil) = true ∧
    attributesAfterPass "en" "fr" (.cons "title" (.obj (.cons "en" (.str "hello") .nil)) .nil)
      = .cons "title" (.obj (.cons "en" (.str "hello") .nil)) .nil :=
  ⟨by decide, record_attributes_unchanged_of_clean "en" "fr"
    (.cons "title" (.obj (.cons "en" (.str "hello") .nil)) .nil)
    (by decide) (by decide) (by decide) (by decide)⟩

end LocaleDuplicate
